import Mathlib

/-!
# Library management (CSV-backed book ledger): embedding of `src/main.cpp`

The C++ program keeps a `std::vector<Library>` in memory, a global counter
`nextAutoSerialNumber`, and one backing file `LibraryManagement.csv`.

Modelling conventions
* `std::string` and file contents are lists of characters (`Str`).
* `int` is a 32-bit and `long int` a 64-bit two's-complement integer; values
  are carried in `Int`, arithmetic that can leave the range is wrapped
  explicitly (`wrap32`, `wrap64`), and `IsInt32` / `IsInt64` say that a value
  fits its C++ type.
* Console prompts are replaced by the values the operator types; the
  messages that matter are summarised by `Outcome`.
-/

namespace LibraryCsv

/-! ## Text and machine integers -/

/-- Byte strings (`std::string`, file contents). -/
abbrev Str := List Char

/-- Value fits a C++ `int` (32-bit). -/
def IsInt32 (v : Int) : Prop := -2147483648 ≤ v ∧ v ≤ 2147483647

/-- Value fits a C++ `long int` / `long long` (64-bit). -/
def IsInt64 (v : Int) : Prop := -9223372036854775808 ≤ v ∧ v ≤ 9223372036854775807

instance (v : Int) : Decidable (IsInt32 v) := by unfold IsInt32; infer_instance

instance (v : Int) : Decidable (IsInt64 v) := by unfold IsInt64; infer_instance

/-- Two's-complement reduction of an `int` result. -/
def wrap32 (v : Int) : Int := (v + 2147483648) % 4294967296 - 2147483648

/-- Two's-complement reduction of a `long int` result. -/
def wrap64 (v : Int) : Int :=
  (v + 9223372036854775808) % 18446744073709551616 - 9223372036854775808

/-! ## The record (`struct Library`, l.16-28) -/

/-- One book entry. -/
structure Library where
  serialNumber : Int
  bookCode : Int
  bookName : Str
  authorName : Str
  cost : Int
  qty : Int
  totalCost : Int
deriving DecidableEq, Repr

/-- The default constructor (l.27). -/
def Library.init : Library :=
  { serialNumber := 0, bookCode := 0, bookName := [], authorName := [],
    cost := 0, qty := 0, totalCost := 0 }

/-- Every numeric field fits its C++ type. -/
def Library.InRange (b : Library) : Prop :=
  IsInt32 b.serialNumber ∧ IsInt32 b.bookCode ∧ IsInt32 b.cost ∧ IsInt32 b.qty ∧
    IsInt64 b.totalCost

instance (b : Library) : Decidable b.InRange := by unfold Library.InRange; infer_instance

/-! ## Writing numbers and lines (`operator<<`, l.122-131 and l.150-159) -/

/-- Decimal output of an integer: a minus sign for negatives, then the digits. -/
def showInt (v : Int) : Str :=
  if v < 0 then '-' :: Nat.toDigits 10 v.natAbs else Nat.toDigits 10 v.natAbs

/-- The CSV header text (l.122, l.150). -/
def header : Str :=
  "Internal Serial No,Book Code,Book Name,Author Name,Cost,Qty,Total Cost".toList

/-- The text of one record line, without the line end (l.125-131, l.153-159). -/
def encodeLine (book : Library) : Str :=
  showInt book.serialNumber ++ ',' :: (showInt book.bookCode ++ ',' :: (book.bookName ++
    ',' :: (book.authorName ++ ',' :: (showInt book.cost ++ ',' :: (showInt book.qty ++
    ',' :: showInt book.totalCost)))))

/-- All record lines, each followed by the line end (the loop l.124-132). -/
def encodeLines : List Library → Str
  | [] => []
  | book :: rest => encodeLine book ++ '\n' :: encodeLines rest

/-- What `saveBooksToFile` writes into the truncated file (l.122-132). -/
def fileImage (collection : List Library) : Str :=
  header ++ '\n' :: encodeLines collection

/-! ## Reading numbers (`std::stoi`, `std::stoll`) -/

/-- The characters `strtol` skips before a number (`isspace` in the C locale). -/
def isSpace (c : Char) : Bool :=
  c = ' ' || c = '\t' || c = '\n' || c = '\x0b' || c = '\x0c' || c = '\r'

/-- Value of the leading run of decimal digits, continuing from `acc`. -/
def parseDigits : Nat → Str → Nat
  | acc, [] => acc
  | acc, c :: cs => if c.isDigit then parseDigits (acc * 10 + (c.toNat - 48)) cs else acc

/-- Whether the text starts with a decimal digit. -/
def startsWithDigit : Str → Bool
  | [] => false
  | c :: _ => c.isDigit

/-- Sign and digits, after the leading white space has been dropped. -/
def parseSigned : Str → Option Int
  | '-' :: cs => if startsWithDigit cs then some (-(parseDigits 0 cs : Int)) else none
  | '+' :: cs => if startsWithDigit cs then some (parseDigits 0 cs : Int) else none
  | cs => if startsWithDigit cs then some (parseDigits 0 cs : Int) else none

/-- The exact value `strtol(.., 10)` converts: leading white space, an optional sign,
a non-empty run of digits; what follows the digits is ignored. `none` when there is
no digit to convert (`std::invalid_argument`). -/
def strtolExact (s : Str) : Option Int := parseSigned (s.dropWhile isSpace)

/-- `std::stoi`: `none` stands for either exception (`invalid_argument`,
`out_of_range`). -/
def stoi (s : Str) : Option Int :=
  match strtolExact s with
  | none => none
  | some v => if IsInt32 v then some v else none

/-- `std::stoll`: `none` stands for either exception. -/
def stoll (s : Str) : Option Int :=
  match strtolExact s with
  | none => none
  | some v => if IsInt64 v then some v else none

/-! ## Reading lines (`std::getline`) -/

/-- State of a `std::stringstream` being read: what is left, and `good()`. -/
structure SStream where
  buf : Str
  good : Bool
deriving DecidableEq, Repr

/-- Text before the first `delim`, and what follows it (`none` when `delim` does not
occur, so that the read runs into the end). -/
def splitAtDelim (delim : Char) : Str → Str × Option Str
  | [] => ([], none)
  | c :: cs =>
    if c = delim then ([], some cs)
    else ((c :: (splitAtDelim delim cs).1), (splitAtDelim delim cs).2)

/-- `std::getline(ss, str, delim)`. When the stream is no longer good the sentry
fails and `str` keeps its old value; otherwise `str` is replaced by the text up to the
delimiter (which is consumed), and running into the end of the buffer leaves the
stream not good. -/
def getline (ss : SStream) (str : Str) (delim : Char) : SStream × Str :=
  if ss.good then
    match splitAtDelim delim ss.buf with
    | (pre, some rest) => ({ buf := rest, good := true }, pre)
    | (pre, none) => ({ buf := [], good := false }, pre)
  else (ss, str)

/-- One iteration of the loop body of `loadBooksFromFile` (l.185-255): the record a
line yields, or `none` when a conversion throws and the line is skipped. -/
def decodeLine (line : Str) : Option Library :=
  let ss0 : SStream := { buf := line, good := true }
  let r1 := getline ss0 [] ','
  match stoi r1.2 with
  | none => none
  | some serialNumber =>
    let r2 := getline r1.1 r1.2 ','
    match stoi r2.2 with
    | none => none
    | some bookCode =>
      let r3 := getline r2.1 [] ','
      let r4 := getline r3.1 [] ','
      let r5 := getline r4.1 r2.2 ','
      match stoi r5.2 with
      | none => none
      | some cost =>
        let r6 := getline r5.1 r5.2 ','
        match stoi r6.2 with
        | none => none
        | some qty =>
          let r7 := getline r6.1 r6.2 '\n'
          match stoll r7.2 with
          | none => none
          | some totalCost =>
            some { serialNumber := serialNumber, bookCode := bookCode, bookName := r3.2,
                   authorName := r4.2, cost := cost, qty := qty, totalCost := totalCost }

/-- The lines `std::getline(inFile, line)` delivers one after the other, `cur` being
the part of the current line already read. A final line without line end counts
only when it is not empty (otherwise the read fails and the loop ends). -/
def fileLinesFrom : Str → Str → List Str
  | [], cur => if cur = [] then [] else [cur]
  | c :: cs, cur => if c = '\n' then cur :: fileLinesFrom cs [] else fileLinesFrom cs (cur ++ [c])

/-- The lines of a file. -/
def fileLines (content : Str) : List Str := fileLinesFrom content []

/-- `loadBooksFromFile` (l.164-259). `file = none`: the file cannot be opened, and the
collection is left as it is. Otherwise the collection is cleared, the first line is
read and dropped, and every further line is decoded on its own. -/
def loadBooksFromFile (collection : List Library) (file : Option Str) : List Library :=
  match file with
  | none => collection
  | some content =>
    match fileLines content with
    | [] => []
    | _ :: rest => rest.filterMap decodeLine

/-! ## The backing file and the two writers -/

/-- The backing file as the program meets it: its bytes (`none` while the file does
not exist) and whether opening it for writing succeeds. -/
structure Store where
  content : Option Str
  writable : Bool
deriving DecidableEq, Repr

/-- `saveBooksToFile` (l.113-134): truncate, then header and every record; nothing
happens when the file cannot be opened. -/
def saveBooksToFile (collection : List Library) (store : Store) : Store :=
  if store.writable then { store with content := some (fileImage collection) } else store

/-- `appendBookToFile` (l.137-161): append mode creates a missing file; the header is
written first when the end position is 0; then the record line. -/
def appendBookToFile (book : Library) (store : Store) : Store :=
  if store.writable then
    let old := store.content.getD []
    let start := if old.length = 0 then old ++ (header ++ ['\n']) else old
    { store with content := some (start ++ (encodeLine book ++ ['\n'])) }
  else store

/-! ## Operator input and the prompt loop (`getUserInputForBookDetailsAndCode`) -/

/-- What the operator types for one book: the two text lines, the number typed at
`Book Code:`, the numbers typed at the following `enter a unique Book Code` prompts
(used only as long as the previous one was refused), price and quantity. -/
structure BookInput where
  bookName : Str
  authorName : Str
  bookCode : Int
  retryCodes : List Int
  cost : Int
  qty : Int
deriving DecidableEq, Repr

/-- The typed numbers fit `int`, and the typed lines contain no line end. -/
def BookInput.Valid (inp : BookInput) : Prop :=
  IsInt32 inp.bookCode ∧ (∀ c ∈ inp.retryCodes, IsInt32 c) ∧ IsInt32 inp.cost ∧
    IsInt32 inp.qty ∧ '\n' ∉ inp.bookName ∧ '\n' ∉ inp.authorName

instance (inp : BookInput) : Decidable inp.Valid := by unfold BookInput.Valid; infer_instance

/-- The uniqueness scan (l.48-56): some existing book with another serial number
carries the code of `book`. -/
def isDuplicate (book : Library) (existingBooks : List Library) : Bool :=
  existingBooks.any fun existingBook =>
    existingBook.serialNumber != book.serialNumber && existingBook.bookCode == book.bookCode

/-- The `while (true)` loop l.41-64: each typed number is stored into `book.bookCode`
and scanned; a refused number asks again. The flag is `false` when the typed numbers
ran out while the last one was refused (the program is still asking). -/
def readBookCode (book : Library) (existingBooks : List Library) : Int → List Int → Library × Bool
  | code, [] =>
    ({ book with bookCode := code }, !isDuplicate { book with bookCode := code } existingBooks)
  | code, next :: more =>
    if isDuplicate { book with bookCode := code } existingBooks then
      readBookCode book existingBooks next more
    else ({ book with bookCode := code }, true)

/-- `getUserInputForBookDetailsAndCode` (l.31-91): the two names are stored first, then
the code loop runs, then price and quantity are stored and `totalCost` is computed as a
`long int` product. With the flag `false` the function has not returned. -/
def getUserInputForBookDetailsAndCode (book : Library) (existingBooks : List Library)
    (inp : BookInput) : Library × Bool :=
  let named := { book with bookName := inp.bookName, authorName := inp.authorName }
  let coded := readBookCode named existingBooks inp.bookCode inp.retryCodes
  if coded.2 then
    ({ coded.1 with cost := inp.cost, qty := inp.qty, totalCost := wrap64 (inp.cost * inp.qty) },
      true)
  else (coded.1, false)

/-! ## Program state and the menu operations -/

/-- The vector in RAM, the global counter, and the backing file. -/
structure State where
  collection : List Library
  nextAutoSerialNumber : Int
  store : Store
deriving DecidableEq, Repr

/-- What an operation reported last. -/
inductive Outcome where
  | done
  | libraryEmpty
  | notFound
  | duplicateCode
deriving DecidableEq, Repr

/-- `addBook` (l.265-283). The counter is taken and incremented before anything is
asked. With outcome `duplicateCode` the state is the one at the pending prompt. -/
def addBook (st : State) (inp : BookInput) : State × Outcome :=
  let newBook := { Library.init with serialNumber := st.nextAutoSerialNumber }
  let next := wrap32 (st.nextAutoSerialNumber + 1)
  let r := getUserInputForBookDetailsAndCode newBook st.collection inp
  if r.2 then
    ({ collection := st.collection ++ [r.1], nextAutoSerialNumber := next,
       store := appendBookToFile r.1 st.store }, Outcome.done)
  else ({ st with nextAutoSerialNumber := next }, Outcome.duplicateCode)

/-- `deleteBook` (l.286-316): `remove_if` keeps the other records in order; the file
is rewritten only when something was removed. -/
def deleteBook (st : State) (codeToDelete : Int) : State × Outcome :=
  if st.collection = [] then (st, Outcome.libraryEmpty)
  else
    let kept := st.collection.filter fun book => !(book.bookCode == codeToDelete)
    if kept.length < st.collection.length then
      ({ st with collection := kept, store := saveBooksToFile kept st.store }, Outcome.done)
    else (st, Outcome.notFound)

/-- Overwrite the first element satisfying `p` (the element `it` points at). -/
def replaceFirst (p : Library → Bool) (new : Library) : List Library → List Library
  | [] => []
  | book :: rest => if p book then new :: rest else book :: replaceFirst p new rest

/-- `modifyBook` (l.319-360): `find_if` locates the first record with the code; the
uniqueness scan runs against a copy without the records that share its serial number;
the record is overwritten in place and the file rewritten. With outcome
`duplicateCode` the record already holds the typed names and the refused code, and
nothing was written. -/
def modifyBook (st : State) (codeToModify : Int) (inp : BookInput) : State × Outcome :=
  if st.collection = [] then (st, Outcome.libraryEmpty)
  else
    match st.collection.find? fun book => book.bookCode == codeToModify with
    | none => (st, Outcome.notFound)
    | some target =>
      let originalSerialNumber := target.serialNumber
      let tempCollection :=
        st.collection.filter fun b => !(b.serialNumber == originalSerialNumber)
      let r := getUserInputForBookDetailsAndCode target tempCollection inp
      let edited := { r.1 with serialNumber := originalSerialNumber }
      let collection := replaceFirst (fun book => book.bookCode == codeToModify) edited
        st.collection
      if r.2 then
        ({ st with collection := collection, store := saveBooksToFile collection st.store },
          Outcome.done)
      else ({ st with collection := collection }, Outcome.duplicateCode)

/-- The largest serial number found by the scan l.414-419 (starting from 0). -/
def maxSerialNumber (collection : List Library) : Int :=
  collection.foldl (fun m book => if book.serialNumber > m then book.serialNumber else m) 0

/-- Program start (`main`, l.405-421): load, then fix the counter up. -/
def startup (store : Store) : State :=
  let collection := loadBooksFromFile [] store.content
  { collection := collection,
    nextAutoSerialNumber :=
      if collection = [] then 1 else wrap32 (maxSerialNumber collection + 1),
    store := store }

/-- One menu choice, or leaving the program and starting it again. -/
inductive Op where
  | add (inp : BookInput)
  | delete (codeToDelete : Int)
  | modify (codeToModify : Int) (inp : BookInput)
  | restart
deriving DecidableEq, Repr

/-- The effect of one operation. -/
def step (st : State) : Op → State × Outcome
  | Op.add inp => addBook st inp
  | Op.delete code => deleteBook st code
  | Op.modify code inp => modifyBook st code inp
  | Op.restart => (startup st.store, Outcome.done)

/-- The state after a sequence of operations. An operation left at the
duplicate-code prompt never returns, so nothing after it is run. -/
def run (st : State) : List Op → State
  | [] => st
  | op :: ops =>
    if (step st op).2 = Outcome.duplicateCode then (step st op).1 else run (step st op).1 ops

/-- The serial numbers handed out by the adds of a sequence, in order (l.270). -/
def assignedIds (st : State) : List Op → List Int
  | [] => []
  | Op.add inp :: ops =>
    st.nextAutoSerialNumber ::
      (if (addBook st inp).2 = Outcome.duplicateCode then []
       else assignedIds (addBook st inp).1 ops)
  | op :: ops =>
    if (step st op).2 = Outcome.duplicateCode then [] else assignedIds (step st op).1 ops

/-! ## Side conditions and sample data -/

/-- Names of a record contain neither the field delimiter nor a line end. -/
def Library.CleanText (b : Library) : Prop :=
  ',' ∉ b.bookName ∧ ',' ∉ b.authorName ∧ '\n' ∉ b.bookName ∧ '\n' ∉ b.authorName

instance (b : Library) : Decidable b.CleanText := by unfold Library.CleanText; infer_instance

/-- A store that does not exist yet and can be created. -/
def freshStore : Store := { content := none, writable := true }

/-- Sample record. -/
def dune : Library :=
  { serialNumber := 1, bookCode := 101, bookName := "Dune".toList,
    authorName := "Herbert".toList, cost := 15, qty := 2, totalCost := 30 }

/-- Sample record whose title holds a line end and no comma. -/
def twoLineTitle : Library :=
  { serialNumber := 1, bookCode := 101, bookName := "a\nb".toList,
    authorName := "c".toList, cost := 15, qty := 2, totalCost := 30 }

/-- What the operator types for a book with the given code, accepted or not at the
first prompt (no further code is typed). -/
def sampleInput (code : Int) : BookInput :=
  { bookName := "Emma".toList, authorName := "Austen".toList, bookCode := code,
    retryCodes := [], cost := 3, qty := 4 }

/-- A backing file whose two records carry the largest and the smallest `int` as
serial numbers. -/
def extremeSerialsStore : Store :=
  { content := some (header ++
      "\n2147483647,5,a,b,1,1,1\n-2147483648,7,c,d,1,1,1\n".toList),
    writable := true }

/-- Sample record with code 102. -/
def emma : Library :=
  { serialNumber := 2, bookCode := 102, bookName := "Emma".toList,
    authorName := "Austen".toList, cost := 3, qty := 4, totalCost := 12 }

/-- Sample state: two records, counter at 3, file in step with the collection. -/
def twoBooks : State :=
  { collection := [dune, emma], nextAutoSerialNumber := 3,
    store := { content := some (fileImage [dune, emma]), writable := true } }

/-- The product rule of a record: `totalCost` is `cost` times `qty`. -/
def Library.TotalIsProduct (b : Library) : Prop := b.totalCost = b.cost * b.qty

instance (b : Library) : Decidable b.TotalIsProduct := by
  unfold Library.TotalIsProduct; infer_instance

/-- A menu operation (not a restart) whose typed values are valid. -/
def Op.IsEdit : Op → Prop
  | Op.add inp => inp.Valid
  | Op.delete _ => True
  | Op.modify _ inp => inp.Valid
  | Op.restart => False

instance (op : Op) : Decidable op.IsEdit := by
  cases op <;> unfold Op.IsEdit <;> infer_instance

/-- A backing file whose only record line carries a total that is not the product. -/
def staleTotalStore : Store :=
  { content := some (header ++ "\n1,2,a,b,3,4,99\n".toList), writable := true }

/-- The code typed first for each add of a sequence, in order. -/
def addCodes : List Op → List Int
  | [] => []
  | Op.add inp :: ops => inp.bookCode :: addCodes ops
  | _ :: ops => addCodes ops

/-- An add whose typed values are valid and whose names hold no comma, or a restart. -/
def Op.IsCleanAddOrRestart : Op → Prop
  | Op.add inp => inp.Valid ∧ ',' ∉ inp.bookName ∧ ',' ∉ inp.authorName
  | Op.restart => True
  | _ => False

instance (op : Op) : Decidable op.IsCleanAddOrRestart := by
  cases op <;> unfold Op.IsCleanAddOrRestart <;> infer_instance

/-- The file is writable and in step with the collection (or still empty, with an empty
collection), every record can be written and read back, and the counter is one above
the largest serial number. -/
def Synced (st : State) : Prop :=
  st.store.writable = true ∧
    (st.store.content = some (fileImage st.collection) ∨
      (st.collection = [] ∧ (st.store.content = none ∨ st.store.content = some []))) ∧
    (∀ b ∈ st.collection, b.InRange ∧ b.CleanText) ∧
    st.nextAutoSerialNumber = maxSerialNumber st.collection + 1

/-- The record an accepted add appends. -/
def addedBook (st : State) (inp : BookInput) : Library :=
  { serialNumber := st.nextAutoSerialNumber, bookCode := inp.bookCode,
    bookName := inp.bookName, authorName := inp.authorName, cost := inp.cost,
    qty := inp.qty, totalCost := inp.cost * inp.qty }

/-- Sample input with a chosen title. -/
def titledInput (title : String) (code : Int) : BookInput :=
  { bookName := title.toList, authorName := "x".toList, bookCode := code,
    retryCodes := [], cost := 15, qty := 2 }

/-- The list `start, start + 1, ...` of the given length. -/
def countUp (start : Int) : Nat → List Int
  | 0 => []
  | n + 1 => start :: countUp (start + 1) n

/-! ## Search (`searchByAuthor`, l.363-389) -/

/-- What `searchByAuthor` reports besides the records it displays. -/
inductive SearchReport where
  | libraryEmpty
  | noBooksForAuthor
  | listed
deriving DecidableEq, Repr

/-- The scan l.377-383: every record whose author equals the name is displayed with the
running list number; the flag `foundBooks` is raised at the first match. -/
def searchLoop (searchAuthorName : Str) : List Library → Int → Bool → List (Int × Library) × Bool
  | [], _, foundBooks => ([], foundBooks)
  | book :: rest, serialCounter, foundBooks =>
    if book.authorName = searchAuthorName then
      ((serialCounter, book) :: (searchLoop searchAuthorName rest (wrap32 (serialCounter + 1)) true).1,
        (searchLoop searchAuthorName rest (wrap32 (serialCounter + 1)) true).2)
    else searchLoop searchAuthorName rest serialCounter foundBooks

/-- `searchByAuthor` (l.363-389): the displayed records with their list numbers, and
which closing message was printed. An empty collection returns before any name is
asked. -/
def searchByAuthor (collection : List Library) (searchAuthorName : Str) :
    List (Int × Library) × SearchReport :=
  if collection = [] then ([], SearchReport.libraryEmpty)
  else
    let r := searchLoop searchAuthorName collection 1 false
    (r.1, if r.2 then SearchReport.listed else SearchReport.noBooksForAuthor)

/-- Sample state whose file cannot be opened for writing. -/
def lockedState : State :=
  { collection := [dune], nextAutoSerialNumber := 2,
    store := { content := some (fileImage [dune]), writable := false } }

/-- The same state with a file that can be written. -/
def State.unlocked (st : State) : State :=
  { st with store := { st.store with writable := true } }

/-- A backing file whose only record carries a negative serial number. -/
def negativeSerialStore : Store :=
  { content := some (header ++ "\n-5,7,a,b,1,1,1\n".toList), writable := true }

/-- A backing file whose only record carries the largest `int` as serial number. -/
def maxSerialStore : Store :=
  { content := some (header ++ "\n2147483647,5,a,b,1,1,1\n".toList), writable := true }

/-- A backing file whose only record carries the largest `int` minus one. -/
def nearMaxSerialStore : Store :=
  { content := some (header ++ "\n2147483646,5,a,b,1,1,1\n".toList), writable := true }

/-- The counter is above every serial number of the collection. -/
def State.CounterAbove (st : State) : Prop :=
  ∀ b ∈ st.collection, b.serialNumber < st.nextAutoSerialNumber

instance (st : State) : Decidable st.CounterAbove := by
  unfold State.CounterAbove; infer_instance

/-- The file text of a list of lines: each line followed by a line end. -/
def joinLines : List Str → Str
  | [] => []
  | l :: ls => l ++ '\n' :: joinLines ls

/-- An optional sign followed by decimal digits only, at least one. -/
def isPlainInteger : Str → Bool
  | '-' :: cs => !cs.isEmpty && cs.all Char.isDigit
  | '+' :: cs => !cs.isEmpty && cs.all Char.isDigit
  | cs => !cs.isEmpty && cs.all Char.isDigit

/-- The text without one leading sign. -/
def stripSign : Str → Str
  | '-' :: cs => cs
  | '+' :: cs => cs
  | cs => cs

/-- The text begins, after optional white space, with an optional sign followed by a
decimal digit. -/
def startsWithInteger (s : Str) : Bool := startsWithDigit (stripSign (s.dropWhile isSpace))

/-- A line of seven or more comma-separated fields: six fields without comma, and the
rest of the line. -/
def sevenFields (f1 f2 name author f5 f6 rest : Str) : Str :=
  f1 ++ ',' :: (f2 ++ ',' :: (name ++ ',' :: (author ++ ',' :: (f5 ++ ',' :: (f6 ++
    ',' :: rest)))))

/-- Sample input at the ends of the `int` range. -/
def extremeInput : BookInput :=
  { bookName := "Emma".toList, authorName := "Austen".toList, bookCode := 7,
    retryCodes := [], cost := -2147483648, qty := -2147483648 }

/-! # Theorems -/

/-! ## Numbers: printing and reading back -/

theorem digitChar_facts : ∀ d : Fin 10,
    (Nat.digitChar d.val).isDigit = true ∧ (Nat.digitChar d.val).toNat - 48 = d.val ∧
      Nat.digitChar d.val ≠ ',' ∧ Nat.digitChar d.val ≠ '\n' ∧
      isSpace (Nat.digitChar d.val) = false ∧ Nat.digitChar d.val ≠ '-' ∧
      Nat.digitChar d.val ≠ '+' := by
  decide

theorem toDigitsCore_append (fuel : Nat) : ∀ (n : Nat) (ds : List Char),
    Nat.toDigitsCore 10 fuel n ds = Nat.toDigitsCore 10 fuel n [] ++ ds := by
  induction fuel with
  | zero => intro n ds; simp [Nat.toDigitsCore]
  | succ f ih =>
    intro n ds
    simp only [Nat.toDigitsCore]
    split
    · simp
    · rw [ih (n / 10) (Nat.digitChar (n % 10) :: ds), ih (n / 10) [Nat.digitChar (n % 10)]]
      simp

theorem toDigitsCore_fuel (n : Nat) : ∀ fuel, n < fuel →
    Nat.toDigitsCore 10 fuel n [] = Nat.toDigits 10 n := by
  induction n using Nat.strong_induction_on with
  | _ n ih =>
    intro fuel hf
    obtain ⟨f, rfl⟩ : ∃ f, fuel = f + 1 := ⟨fuel - 1, by omega⟩
    unfold Nat.toDigits
    simp only [Nat.toDigitsCore]
    by_cases h : n / 10 = 0
    · simp [h]
    · simp only [h, if_false]
      have hlt : n / 10 < n := by omega
      rw [toDigitsCore_append f, toDigitsCore_append n, ih (n / 10) hlt f (by omega),
        ih (n / 10) hlt n (by omega)]

theorem toDigits_small (n : Nat) (h : n < 10) : Nat.toDigits 10 n = [Nat.digitChar n] := by
  unfold Nat.toDigits
  simp only [Nat.toDigitsCore]
  have h0 : n / 10 = 0 := by omega
  have h1 : n % 10 = n := by omega
  simp [h0, h1]

theorem toDigits_step (n : Nat) (h : 10 ≤ n) :
    Nat.toDigits 10 n = Nat.toDigits 10 (n / 10) ++ [Nat.digitChar (n % 10)] := by
  conv_lhs => unfold Nat.toDigits
  simp only [Nat.toDigitsCore]
  have h0 : ¬ n / 10 = 0 := by omega
  simp only [h0, if_false]
  rw [toDigitsCore_append n, toDigitsCore_fuel (n / 10) n (by omega)]

/-- Characters of a printed natural number are all decimal digits. -/
theorem toDigits_all_digit (n : Nat) : ∀ c ∈ Nat.toDigits 10 n, ∃ d : Fin 10, c = Nat.digitChar d.val := by
  induction n using Nat.strong_induction_on with
  | _ n ih =>
    by_cases h : n < 10
    · rw [toDigits_small n h]
      intro c hc
      simp only [List.mem_singleton] at hc
      exact ⟨⟨n, h⟩, hc⟩
    · rw [toDigits_step n (by omega)]
      intro c hc
      rcases List.mem_append.mp hc with hc | hc
      · exact ih (n / 10) (by omega) c hc
      · simp only [List.mem_singleton] at hc
        exact ⟨⟨n % 10, by omega⟩, hc⟩

theorem toDigits_ne_nil (n : Nat) : Nat.toDigits 10 n ≠ [] := by
  by_cases h : n < 10
  · rw [toDigits_small n h]; simp
  · rw [toDigits_step n (by omega)]; simp

theorem parseDigits_append_digit (xs : Str) (hxs : ∀ c ∈ xs, c.isDigit = true) (d : Char)
    (hd : d.isDigit = true) : ∀ acc,
    parseDigits acc (xs ++ [d]) = parseDigits acc xs * 10 + (d.toNat - 48) := by
  induction xs with
  | nil => intro acc; simp [parseDigits, hd]
  | cons x xs ih =>
    intro acc
    have hx : x.isDigit = true := hxs x (List.mem_cons_self _ _)
    simp only [List.cons_append, parseDigits, hx, if_true]
    exact ih (fun c hc => hxs c (List.mem_cons_of_mem _ hc)) _

theorem parseDigits_toDigits (n : Nat) : parseDigits 0 (Nat.toDigits 10 n) = n := by
  induction n using Nat.strong_induction_on with
  | _ n ih =>
    by_cases h : n < 10
    · rw [toDigits_small n h]
      have := digitChar_facts ⟨n, h⟩
      simp [parseDigits, this.1, this.2.1]
    · rw [toDigits_step n (by omega)]
      have hd := digitChar_facts ⟨n % 10, by omega⟩
      have hv : (Nat.digitChar (n % 10)).toNat - 48 = n % 10 := hd.2.1
      rw [parseDigits_append_digit _ _ _ hd.1, ih (n / 10) (by omega), hv]
      · omega
      · intro c hc
        obtain ⟨d, rfl⟩ := toDigits_all_digit (n / 10) c hc
        exact (digitChar_facts d).1

theorem toDigits_head (n : Nat) :
    ∃ (d : Fin 10) (rest : Str), Nat.toDigits 10 n = Nat.digitChar d.val :: rest := by
  cases h : Nat.toDigits 10 n with
  | nil => exact absurd h (toDigits_ne_nil n)
  | cons c rest =>
    obtain ⟨d, hd⟩ := toDigits_all_digit n c (by rw [h]; exact List.mem_cons_self _ _)
    exact ⟨d, rest, by rw [hd]⟩

theorem parseSigned_toDigits (n : Nat) : parseSigned (Nat.toDigits 10 n) = some (n : Int) := by
  have hp := parseDigits_toDigits n
  obtain ⟨d, rest, h⟩ := toDigits_head n
  rw [h] at hp ⊢
  have hd := digitChar_facts d
  unfold parseSigned
  split
  · next cs heq => exact absurd (List.cons.inj heq).1 hd.2.2.2.2.2.1
  · next cs heq => exact absurd (List.cons.inj heq).1 hd.2.2.2.2.2.2
  · simp [startsWithDigit, hd.1, hp]

theorem strtolExact_showInt (v : Int) : strtolExact (showInt v) = some v := by
  unfold strtolExact showInt
  by_cases hv : v < 0
  · simp only [hv, if_true]
    have hs : List.dropWhile isSpace ('-' :: Nat.toDigits 10 v.natAbs)
        = '-' :: Nat.toDigits 10 v.natAbs := by
      rw [List.dropWhile_cons_of_neg (by decide)]
    rw [hs]
    obtain ⟨d, rest, h⟩ := toDigits_head v.natAbs
    have hp := parseDigits_toDigits v.natAbs
    simp only [parseSigned]
    rw [h] at hp ⊢
    simp only [startsWithDigit, (digitChar_facts d).1, if_true, hp]
    congr 1
    omega
  · simp only [hv, if_false]
    obtain ⟨d, rest, h⟩ := toDigits_head v.natAbs
    have hs : List.dropWhile isSpace (Nat.toDigits 10 v.natAbs) = Nat.toDigits 10 v.natAbs := by
      rw [h, List.dropWhile_cons_of_neg (by simp [(digitChar_facts d).2.2.2.2.1])]
    rw [hs, parseSigned_toDigits]
    congr 1
    omega

theorem stoi_showInt (v : Int) (h : IsInt32 v) : stoi (showInt v) = some v := by
  simp [stoi, strtolExact_showInt, h]

theorem stoll_showInt (v : Int) (h : IsInt64 v) : stoll (showInt v) = some v := by
  simp [stoll, strtolExact_showInt, h]

theorem showInt_chars (v : Int) : ∀ c ∈ showInt v, c ≠ ',' ∧ c ≠ '\n' := by
  intro c hc
  have hdig : ∀ c ∈ Nat.toDigits 10 v.natAbs, c ≠ ',' ∧ c ≠ '\n' := by
    intro c hc
    obtain ⟨d, rfl⟩ := toDigits_all_digit _ c hc
    exact ⟨(digitChar_facts d).2.2.1, (digitChar_facts d).2.2.2.1⟩
  unfold showInt at hc
  split at hc
  · rcases List.mem_cons.mp hc with rfl | hc
    · decide
    · exact hdig c hc
  · exact hdig c hc

/-! ## Splitting at a delimiter -/

theorem splitAtDelim_append (delim : Char) (rest : Str) : ∀ xs : Str, delim ∉ xs →
    splitAtDelim delim (xs ++ delim :: rest) = (xs, some rest) := by
  intro xs
  induction xs with
  | nil => intro _; simp [splitAtDelim]
  | cons x xs ih =>
    intro h
    have hx : x ≠ delim := fun e => h (e ▸ List.mem_cons_self _ _)
    have hxs : delim ∉ xs := fun e => h (List.mem_cons_of_mem _ e)
    simp [splitAtDelim, hx, ih hxs]

theorem splitAtDelim_none (delim : Char) : ∀ xs : Str, delim ∉ xs →
    splitAtDelim delim xs = (xs, none) := by
  intro xs
  induction xs with
  | nil => intro _; simp [splitAtDelim]
  | cons x xs ih =>
    intro h
    have hx : x ≠ delim := fun e => h (e ▸ List.mem_cons_self _ _)
    have hxs : delim ∉ xs := fun e => h (List.mem_cons_of_mem _ e)
    simp [splitAtDelim, hx, ih hxs]

theorem getline_field (delim : Char) (xs rest old : Str) (h : delim ∉ xs) :
    getline { buf := xs ++ delim :: rest, good := true } old delim
      = ({ buf := rest, good := true }, xs) := by
  simp [getline, splitAtDelim_append delim rest xs h]

theorem getline_last (delim : Char) (xs old : Str) (h : delim ∉ xs) :
    getline { buf := xs, good := true } old delim = ({ buf := [], good := false }, xs) := by
  simp [getline, splitAtDelim_none delim xs h]

theorem showInt_no_comma (v : Int) : ',' ∉ showInt v := fun h => (showInt_chars v _ h).1 rfl

theorem showInt_no_newline (v : Int) : '\n' ∉ showInt v := fun h => (showInt_chars v _ h).2 rfl

/-- Decoding an encoded line (shared form of the line round trip). -/
theorem line_round_trip_aux (book : Library) (hr : book.InRange)
    (hn : ',' ∉ book.bookName) (ha : ',' ∉ book.authorName) :
    decodeLine (encodeLine book) = some book := by
  obtain ⟨h1, h2, h3, h4, h5⟩ := hr
  unfold decodeLine encodeLine
  simp only [getline_field ',' _ _ _ (showInt_no_comma _), getline_field ',' _ _ _ hn,
    getline_field ',' _ _ _ ha, getline_last '\n' _ _ (showInt_no_newline _),
    stoi_showInt _ h1, stoi_showInt _ h2, stoi_showInt _ h3, stoi_showInt _ h4,
    stoll_showInt _ h5]

/-! ## Lines of a file -/

theorem fileLinesFrom_line (rest : Str) : ∀ (l cur : Str), '\n' ∉ l →
    fileLinesFrom (l ++ '\n' :: rest) cur = (cur ++ l) :: fileLinesFrom rest [] := by
  intro l
  induction l with
  | nil => intro cur _; simp [fileLinesFrom]
  | cons x xs ih =>
    intro cur h
    have hx : x ≠ '\n' := fun e => h (e ▸ List.mem_cons_self _ _)
    have hxs : '\n' ∉ xs := fun e => h (List.mem_cons_of_mem _ e)
    have e : fileLinesFrom ((x :: xs) ++ '\n' :: rest) cur
        = fileLinesFrom (xs ++ '\n' :: rest) (cur ++ [x]) := by
      simp [fileLinesFrom, hx]
    rw [e, ih (cur ++ [x]) hxs]
    simp

theorem header_no_newline : '\n' ∉ header := by decide

theorem encodeLine_no_newline (b : Library) (hn : '\n' ∉ b.bookName)
    (ha : '\n' ∉ b.authorName) : '\n' ∉ encodeLine b := by
  have h := showInt_no_newline
  simp [encodeLine, h, hn, ha]

theorem fileLinesFrom_encodeLines : ∀ collection : List Library,
    (∀ b ∈ collection, '\n' ∉ b.bookName ∧ '\n' ∉ b.authorName) →
    fileLinesFrom (encodeLines collection) [] = collection.map encodeLine := by
  intro collection
  induction collection with
  | nil => intro _; simp [encodeLines, fileLinesFrom]
  | cons b bs ih =>
    intro h
    have hb := h b (List.mem_cons_self _ _)
    simp only [encodeLines, List.map_cons]
    rw [fileLinesFrom_line _ _ _ (encodeLine_no_newline b hb.1 hb.2),
      ih (fun c hc => h c (List.mem_cons_of_mem _ hc))]
    simp

theorem fileLines_fileImage (collection : List Library)
    (h : ∀ b ∈ collection, '\n' ∉ b.bookName ∧ '\n' ∉ b.authorName) :
    fileLines (fileImage collection) = header :: collection.map encodeLine := by
  unfold fileLines fileImage
  rw [fileLinesFrom_line _ _ _ header_no_newline, fileLinesFrom_encodeLines collection h]
  simp

theorem filterMap_decode_encode : ∀ collection : List Library,
    (∀ b ∈ collection, b.InRange ∧ ',' ∉ b.bookName ∧ ',' ∉ b.authorName) →
    (collection.map encodeLine).filterMap decodeLine = collection := by
  intro collection
  induction collection with
  | nil => intro _; rfl
  | cons b bs ih =>
    intro h
    have hb := h b (List.mem_cons_self _ _)
    simp only [List.map_cons, List.filterMap_cons, line_round_trip_aux b hb.1 hb.2.1 hb.2.2]
    rw [ih (fun c hc => h c (List.mem_cons_of_mem _ hc))]

theorem load_fileImage (old collection : List Library)
    (h : ∀ b ∈ collection, b.InRange ∧ b.CleanText) :
    loadBooksFromFile old (some (fileImage collection)) = collection := by
  unfold loadBooksFromFile
  simp only [fileLines_fileImage collection (fun b hb => ⟨(h b hb).2.2.2.1, (h b hb).2.2.2.2⟩)]
  exact filterMap_decode_encode collection (fun b hb => ⟨(h b hb).1, (h b hb).2.1, (h b hb).2.2.1⟩)

/-! ## Round trips -/

/-- C1. Line round trip: for a record whose numeric fields fit their C++ types and
whose title and author contain no comma, decoding the encoded line succeeds and gives
back the record, equal in all seven fields. -/
theorem line_round_trip (book : Library) (hr : book.InRange)
    (hn : ',' ∉ book.bookName) (ha : ',' ∉ book.authorName) :
    decodeLine (encodeLine book) = some book :=
  line_round_trip_aux book hr hn ha

/-- Witness of C1 at the sample record. -/
theorem line_round_trip_witness :
    dune.InRange ∧ ',' ∉ dune.bookName ∧ ',' ∉ dune.authorName ∧
      decodeLine (encodeLine dune) = some dune :=
  ⟨by decide, by decide, by decide, line_round_trip dune (by decide) (by decide) (by decide)⟩

/-- C2, as stated, fails: a one-record collection whose title is comma-free but holds
a line end is written as two lines and does not load back as itself. -/
theorem file_round_trip_line_end_counterexample :
    (∀ b ∈ [twoLineTitle], b.InRange ∧ ',' ∉ b.bookName ∧ ',' ∉ b.authorName) ∧
      loadBooksFromFile [] (saveBooksToFile [twoLineTitle] freshStore).content
        ≠ [twoLineTitle] := by
  decide

/-- C2 (amended). File round trip: for every sequence of records whose numeric fields
fit their C++ types and whose title and author contain neither a comma nor a line end,
loading the file written by `saveBooksToFile` (the file being writable) returns exactly
that sequence, whatever the collection held before; the empty sequence included. -/
theorem file_round_trip (collection old : List Library) (store : Store)
    (h : ∀ b ∈ collection, b.InRange ∧ b.CleanText) (hw : store.writable = true) :
    loadBooksFromFile old (saveBooksToFile collection store).content = collection := by
  simp only [saveBooksToFile, hw, if_true]
  exact load_fileImage old collection h

/-- Witness of C2 (amended) at a one-record collection. -/
theorem file_round_trip_witness :
    (∀ b ∈ [dune], b.InRange ∧ b.CleanText) ∧ freshStore.writable = true ∧
      loadBooksFromFile [] (saveBooksToFile [dune] freshStore).content = [dune] :=
  ⟨by decide, rfl, file_round_trip [dune] [] freshStore (by decide) rfl⟩

/-! ## The code prompt -/

theorem isDuplicate_eq_true_iff (book : Library) (existingBooks : List Library) :
    isDuplicate book existingBooks = true ↔
      ∃ e ∈ existingBooks, e.serialNumber ≠ book.serialNumber ∧ e.bookCode = book.bookCode := by
  simp [isDuplicate, List.any_eq_true]

theorem isDuplicate_eq_false_iff (book : Library) (existingBooks : List Library) :
    isDuplicate book existingBooks = false ↔
      ∀ e ∈ existingBooks, e.serialNumber ≠ book.serialNumber → e.bookCode ≠ book.bookCode := by
  rw [← Bool.not_eq_true, isDuplicate_eq_true_iff]
  constructor
  · intro h e he hs hc; exact h ⟨e, he, hs, hc⟩
  · rintro h ⟨e, he, hs, hc⟩; exact h e he hs hc

/-- The code loop only ever changes `bookCode`; when it ends accepted, the stored code
passed the scan. -/
theorem readBookCode_spec (book : Library) (existingBooks : List Library) :
    ∀ (retries : List Int) (code : Int),
      ∃ c, (readBookCode book existingBooks code retries).1 = { book with bookCode := c } ∧
        ((readBookCode book existingBooks code retries).2 = true →
          isDuplicate { book with bookCode := c } existingBooks = false) := by
  intro retries
  induction retries with
  | nil =>
    intro code
    refine ⟨code, rfl, ?_⟩
    simp [readBookCode]
  | cons next more ih =>
    intro code
    by_cases h : isDuplicate { book with bookCode := code } existingBooks = true
    · simp only [readBookCode, h, if_true]
      exact ih next
    · simp only [readBookCode, h]
      exact ⟨code, rfl, fun _ => by simpa using h⟩

theorem readBookCode_fresh (book : Library) (existingBooks : List Library) (code : Int)
    (retries : List Int) (h : isDuplicate { book with bookCode := code } existingBooks = false) :
    readBookCode book existingBooks code retries = ({ book with bookCode := code }, true) := by
  cases retries <;> simp [readBookCode, h]

theorem readBookCode_refused (book : Library) (existingBooks : List Library) (code : Int)
    (h : isDuplicate { book with bookCode := code } existingBooks = true) :
    readBookCode book existingBooks code [] = ({ book with bookCode := code }, false) ∧
      ∀ next more, readBookCode book existingBooks code (next :: more)
        = readBookCode book existingBooks next more := by
  simp [readBookCode, h]

/-! ## Duplicate codes on add -/

/-- A duplicate code typed for an add is refused whenever some record with that code
has a serial number other than the one being assigned: the scan reports a duplicate;
when no other code is typed the add ends with the duplicate-code report and collection
and file are as before; when another code is typed the add goes on exactly as if the
refused code had never been typed. -/
theorem addBook_refuses_duplicate (st : State) (inp : BookInput)
    (h : ∃ b ∈ st.collection, b.bookCode = inp.bookCode ∧
      b.serialNumber ≠ st.nextAutoSerialNumber) :
    (inp.retryCodes = [] →
      (addBook st inp).2 = Outcome.duplicateCode ∧
        (addBook st inp).1.collection = st.collection ∧
        (addBook st inp).1.store = st.store) ∧
      (∀ next more, inp.retryCodes = next :: more →
        addBook st inp = addBook st { inp with bookCode := next, retryCodes := more }) := by
  obtain ⟨b, hb, hcode, hser⟩ := h
  have hdup : isDuplicate
      { ({ ({ Library.init with serialNumber := st.nextAutoSerialNumber } : Library) with
            bookName := inp.bookName, authorName := inp.authorName } : Library) with
          bookCode := inp.bookCode } st.collection = true :=
    (isDuplicate_eq_true_iff _ _).mpr ⟨b, hb, hser, hcode⟩
  have hr := readBookCode_refused _ _ _ hdup
  constructor
  · intro hnil
    simp [addBook, getUserInputForBookDetailsAndCode, hnil, hr.1]
  · intro next more hcons
    simp [addBook, getUserInputForBookDetailsAndCode, hcons, hr.2]

/-- As long as the counter is above every serial number of the collection (the state of
the program before any overflow of the counter), an add whose code is carried by some
record is refused with the duplicate-code report, and collection and file stay as they
were. -/
theorem addBook_refuses_duplicate_below_counter (st : State) (inp : BookInput)
    (habove : st.CounterAbove) (h : ∃ b ∈ st.collection, b.bookCode = inp.bookCode)
    (hnil : inp.retryCodes = []) :
    (addBook st inp).2 = Outcome.duplicateCode ∧
      (addBook st inp).1.collection = st.collection ∧
      (addBook st inp).1.store = st.store := by
  obtain ⟨b, hb, hcode⟩ := h
  exact (addBook_refuses_duplicate st inp ⟨b, hb, hcode, ne_of_lt (habove b hb)⟩).1 hnil

/-- C5 at its failing input. Started on a file whose two records carry the serial
numbers 2147483647 and -2147483648, `maxSerialNumber + 1` leaves the `int` range and the
counter comes out as -2147483648; the new book then shares the serial number of the
record with code 7, the scan skips that record, and an add with code 7 is reported as
done and appended, so that two records carry code 7. -/
theorem add_accepts_duplicate_after_overflow :
    (startup extremeSerialsStore).nextAutoSerialNumber = -2147483648 ∧
      (∃ b ∈ (startup extremeSerialsStore).collection, b.bookCode = (sampleInput 7).bookCode) ∧
      (addBook (startup extremeSerialsStore) (sampleInput 7)).2 = Outcome.done ∧
      (addBook (startup extremeSerialsStore) (sampleInput 7)).1.collection.length
        = (startup extremeSerialsStore).collection.length + 1 ∧
      ¬ ((addBook (startup extremeSerialsStore) (sampleInput 7)).1.collection.map
          Library.bookCode).Nodup := by
  decide

/-! ## Uniqueness of codes -/

/-- What the prompt function hands back when it returns: the typed names, an accepted
code, price, quantity and the product; the serial number is untouched. -/
theorem getUserInput_accepted (book : Library) (existingBooks : List Library) (inp : BookInput)
    (h : (getUserInputForBookDetailsAndCode book existingBooks inp).2 = true) :
    ∃ c, (getUserInputForBookDetailsAndCode book existingBooks inp).1
        = { serialNumber := book.serialNumber, bookCode := c, bookName := inp.bookName,
            authorName := inp.authorName, cost := inp.cost, qty := inp.qty,
            totalCost := wrap64 (inp.cost * inp.qty) } ∧
      ∀ e ∈ existingBooks, e.serialNumber ≠ book.serialNumber → e.bookCode ≠ c := by
  obtain ⟨c, hc, hacc⟩ := readBookCode_spec
    { book with bookName := inp.bookName, authorName := inp.authorName } existingBooks
    inp.retryCodes inp.bookCode
  unfold getUserInputForBookDetailsAndCode at h ⊢
  dsimp only at h hc hacc ⊢
  generalize readBookCode _ existingBooks inp.bookCode inp.retryCodes = r at h hc hacc ⊢
  obtain ⟨r1, r2⟩ := r
  dsimp only at h hc hacc ⊢
  cases r2 with
  | false => simp at h
  | true =>
    subst hc
    exact ⟨c, by simp, (isDuplicate_eq_false_iff _ _).mp (hacc rfl)⟩

/-- While the prompt function has not returned, only names and code were overwritten. -/
theorem getUserInput_pending (book : Library) (existingBooks : List Library) (inp : BookInput)
    (h : (getUserInputForBookDetailsAndCode book existingBooks inp).2 = false) :
    ∃ c, (getUserInputForBookDetailsAndCode book existingBooks inp).1
        = { book with bookName := inp.bookName, authorName := inp.authorName, bookCode := c } := by
  obtain ⟨c, hc, -⟩ := readBookCode_spec
    { book with bookName := inp.bookName, authorName := inp.authorName } existingBooks
    inp.retryCodes inp.bookCode
  unfold getUserInputForBookDetailsAndCode at h ⊢
  dsimp only at h hc ⊢
  generalize readBookCode _ existingBooks inp.bookCode inp.retryCodes = r at h hc ⊢
  obtain ⟨r1, r2⟩ := r
  dsimp only at h hc ⊢
  cases r2 with
  | true => simp at h
  | false =>
    subst hc
    exact ⟨c, by simp⟩

theorem mem_replaceFirst (p : Library → Bool) (new : Library) :
    ∀ (l : List Library) (e : Library), e ∈ replaceFirst p new l → e = new ∨ e ∈ l := by
  intro l
  induction l with
  | nil => intro e h; simp [replaceFirst] at h
  | cons b rest ih =>
    intro e h
    cases hp : p b with
    | true =>
      simp only [replaceFirst, hp, if_true, List.mem_cons] at h
      rcases h with h | h
      · exact Or.inl h
      · exact Or.inr (List.mem_cons_of_mem _ h)
    | false =>
      simp only [replaceFirst, hp, Bool.false_eq_true, if_false, List.mem_cons] at h
      rcases h with h | h
      · exact Or.inr (h ▸ List.mem_cons_self _ _)
      · rcases ih e h with h | h
        · exact Or.inl h
        · exact Or.inr (List.mem_cons_of_mem _ h)

theorem replaceFirst_codes_nodup (c : Int) (new : Library) : ∀ l : List Library,
    (l.map Library.bookCode).Nodup →
    (∀ e ∈ l, e.bookCode ≠ c → e.bookCode ≠ new.bookCode) →
    ((replaceFirst (fun book => book.bookCode == c) new l).map Library.bookCode).Nodup := by
  intro l
  induction l with
  | nil => intro _ _; simp [replaceFirst]
  | cons b rest ih =>
    intro hnd hne
    rw [List.map_cons, List.nodup_cons] at hnd
    by_cases hb : b.bookCode = c
    · have hp : (b.bookCode == c) = true := by simpa using hb
      have e1 : replaceFirst (fun book => book.bookCode == c) new (b :: rest) = new :: rest := by
        simp [replaceFirst, hp]
      rw [e1, List.map_cons, List.nodup_cons]
      refine ⟨?_, hnd.2⟩
      intro hmem
      obtain ⟨e, he, hec⟩ := List.mem_map.mp hmem
      have hne1 : e.bookCode ≠ c := by
        intro h'
        exact hnd.1 (List.mem_map.mpr ⟨e, he, by rw [h', hb]⟩)
      exact hne e (List.mem_cons_of_mem _ he) hne1 hec
    · have hp : (b.bookCode == c) = false := by simpa using hb
      have e1 : replaceFirst (fun book => book.bookCode == c) new (b :: rest)
          = b :: replaceFirst (fun book => book.bookCode == c) new rest := by
        simp [replaceFirst, hp]
      rw [e1, List.map_cons, List.nodup_cons]
      refine ⟨?_, ih hnd.2 (fun e he => hne e (List.mem_cons_of_mem _ he))⟩
      intro hmem
      obtain ⟨e, he, hec⟩ := List.mem_map.mp hmem
      rcases mem_replaceFirst _ _ _ _ he with h | h
      · subst h
        exact hne b (List.mem_cons_self _ _) hb hec.symm
      · exact hnd.1 (List.mem_map.mpr ⟨e, h, hec⟩)

theorem find_code_some (c : Int) : ∀ (l : List Library) (target : Library),
    l.find? (fun book => book.bookCode == c) = some target →
      target ∈ l ∧ target.bookCode = c := by
  intro l target h
  have h1 := List.find?_some h
  have h2 := List.mem_of_find?_eq_some h
  exact ⟨h2, by simpa using h1⟩

theorem find_code_none (c : Int) (l : List Library) :
    l.find? (fun book => book.bookCode == c) = none ↔ ∀ b ∈ l, b.bookCode ≠ c := by
  simp [List.find?_eq_none]

/-- The collection `modifyBook` leaves behind has pairwise distinct codes when it
reports success. -/
theorem modifyBook_codes_nodup (st : State) (code : Int) (inp : BookInput)
    (hcodes : (st.collection.map Library.bookCode).Nodup)
    (hserials : (st.collection.map Library.serialNumber).Nodup)
    (hdone : (modifyBook st code inp).2 = Outcome.done) :
    ((modifyBook st code inp).1.collection.map Library.bookCode).Nodup := by
  unfold modifyBook at hdone ⊢
  by_cases hemp : st.collection = []
  · simp [hemp]
  · simp only [hemp, if_false] at hdone ⊢
    cases hfind : st.collection.find? (fun book => book.bookCode == code) with
    | none => simp [hfind] at hdone
    | some target =>
      simp only [hfind] at hdone ⊢
      obtain ⟨htmem, htcode⟩ := find_code_some code _ _ hfind
      cases hacc : (getUserInputForBookDetailsAndCode target
          (st.collection.filter fun b => !(b.serialNumber == target.serialNumber)) inp).2 with
      | false => simp [hacc] at hdone
      | true =>
        simp only [hacc, if_true]
        obtain ⟨c, hc, hfresh⟩ := getUserInput_accepted _ _ _ hacc
        apply replaceFirst_codes_nodup code _ _ hcodes
        intro e he hne
        rw [hc]
        have hes : e.serialNumber ≠ target.serialNumber := by
          intro hs
          have := List.inj_on_of_nodup_map hserials he htmem hs
          exact hne (this ▸ htcode)
        exact hfresh e (List.mem_filter.mpr ⟨he, by simpa using hes⟩) hes

/-- The collection `addBook` leaves behind has pairwise distinct codes when it reports
success. -/
theorem addBook_codes_nodup (st : State) (inp : BookInput)
    (hcodes : (st.collection.map Library.bookCode).Nodup)
    (hbelow : ∀ b ∈ st.collection, b.serialNumber < st.nextAutoSerialNumber)
    (hdone : (addBook st inp).2 = Outcome.done) :
    ((addBook st inp).1.collection.map Library.bookCode).Nodup := by
  unfold addBook at hdone ⊢
  cases hacc : (getUserInputForBookDetailsAndCode
      { Library.init with serialNumber := st.nextAutoSerialNumber } st.collection inp).2 with
  | false => simp [hacc] at hdone
  | true =>
    simp only [hacc, if_true, List.map_append, List.map_cons, List.map_nil]
    obtain ⟨c, hc, hfresh⟩ := getUserInput_accepted _ _ _ hacc
    rw [List.nodup_append]
    refine ⟨hcodes, List.nodup_singleton _, ?_⟩
    intro x hx hx'
    obtain ⟨e, he, hec⟩ := List.mem_map.mp hx
    rw [List.mem_singleton] at hx'
    rw [hc] at hx'
    exact hfresh e he (ne_of_lt (hbelow e he)) (hec.trans hx')

/-- The collection `deleteBook` leaves behind has pairwise distinct codes. -/
theorem deleteBook_codes_nodup (st : State) (code : Int)
    (hcodes : (st.collection.map Library.bookCode).Nodup) :
    ((deleteBook st code).1.collection.map Library.bookCode).Nodup := by
  unfold deleteBook
  by_cases hemp : st.collection = []
  · simp [hemp]
  · simp only [hemp, if_false]
    split
    · exact hcodes.sublist ((List.filter_sublist _).map _)
    · exact hcodes

/-- C6. Uniqueness of externalCode is preserved: from a state whose codes are pairwise
distinct, whose serial numbers are pairwise distinct and all below the counter, every
add, delete or modify that reports success leaves a collection with pairwise distinct
codes. -/
theorem codes_stay_unique (st : State) (op : Op)
    (hcodes : (st.collection.map Library.bookCode).Nodup)
    (hserials : (st.collection.map Library.serialNumber).Nodup)
    (hbelow : ∀ b ∈ st.collection, b.serialNumber < st.nextAutoSerialNumber)
    (hop : op ≠ Op.restart) (hdone : (step st op).2 = Outcome.done) :
    ((step st op).1.collection.map Library.bookCode).Nodup := by
  cases op with
  | add inp => exact addBook_codes_nodup st inp hcodes hbelow hdone
  | delete code => exact deleteBook_codes_nodup st code hcodes
  | modify code inp => exact modifyBook_codes_nodup st code inp hcodes hserials hdone
  | restart => exact absurd rfl hop

/-- Witness of C6: changing the code of the first of two books to a new one. -/
theorem codes_stay_unique_witness :
    (twoBooks.collection.map Library.bookCode).Nodup ∧
      (step twoBooks (Op.modify 101 (sampleInput 103))).2 = Outcome.done ∧
      ((step twoBooks (Op.modify 101 (sampleInput 103))).1.collection.map
        Library.bookCode).Nodup :=
  ⟨by decide, by decide,
    codes_stay_unique twoBooks (Op.modify 101 (sampleInput 103)) (by decide) (by decide)
      (by decide) (by decide) (by decide)⟩

/-! ## Modify with the record's own code, and codes that are not there -/

/-- C7. Self-exclusion on modify: in a collection with pairwise distinct codes (and
serial numbers), modifying a record and typing the record's own current code is
accepted at once: the scan runs against the copy without that record, finds no
duplicate, and the modification is reported as done. -/
theorem modify_own_code_accepted (st : State) (r : Library) (inp : BookInput)
    (hcodes : (st.collection.map Library.bookCode).Nodup)
    (_hserials : (st.collection.map Library.serialNumber).Nodup)
    (hr : r ∈ st.collection) (hown : inp.bookCode = r.bookCode) :
    isDuplicate
        { r with bookName := inp.bookName, authorName := inp.authorName, bookCode := inp.bookCode }
        (st.collection.filter fun b => !(b.serialNumber == r.serialNumber)) = false ∧
    (modifyBook st r.bookCode inp).2 = Outcome.done := by
  have hfresh : ∀ target : Library, target ∈ st.collection → target.bookCode = r.bookCode →
      isDuplicate
        { target with
          bookName := inp.bookName, authorName := inp.authorName, bookCode := inp.bookCode }
        (st.collection.filter fun b => !(b.serialNumber == target.serialNumber)) = false := by
    intro target ht htc
    rw [isDuplicate_eq_false_iff]
    intro e he hs hc
    have hemem : e ∈ st.collection := (List.mem_filter.mp he).1
    have : e.bookCode = target.bookCode := by
      simp only at hc
      rw [hc, hown, htc]
    have heq := List.inj_on_of_nodup_map hcodes hemem ht this
    exact hs (by rw [heq])
  refine ⟨hfresh r hr rfl, ?_⟩
  unfold modifyBook
  have hemp : st.collection ≠ [] := List.ne_nil_of_mem hr
  simp only [hemp, if_false]
  cases hfind : st.collection.find? (fun book => book.bookCode == r.bookCode) with
  | none => exact absurd rfl ((find_code_none _ _).mp hfind r hr)
  | some target =>
    obtain ⟨htmem, htcode⟩ := find_code_some _ _ _ hfind
    have hacc : (getUserInputForBookDetailsAndCode target
        (st.collection.filter fun b => !(b.serialNumber == target.serialNumber)) inp).2
        = true := by
      have key := readBookCode_fresh
        { target with bookName := inp.bookName, authorName := inp.authorName }
        (st.collection.filter fun b => !(b.serialNumber == target.serialNumber))
        inp.bookCode inp.retryCodes (hfresh target htmem htcode)
      unfold getUserInputForBookDetailsAndCode
      dsimp only at key ⊢
      rw [key]
      rfl
    simp [hacc]

/-- Witness of C7: the first of two books is modified and keeps its code 101. -/
theorem modify_own_code_accepted_witness :
    (twoBooks.collection.map Library.bookCode).Nodup ∧ dune ∈ twoBooks.collection ∧
      (modifyBook twoBooks dune.bookCode (sampleInput 101)).2 = Outcome.done :=
  ⟨by decide, by decide,
    (modify_own_code_accepted twoBooks dune (sampleInput 101) (by decide) (by decide)
      (by decide) rfl).2⟩

/-- C8. Not found means no mutation: when no record carries the code, `deleteBook` and
`modifyBook` return the state they were given (same collection, same counter, same file
bytes), and report not-found or, for an empty collection, library-empty. -/
theorem absent_code_no_mutation (st : State) (code : Int) (inp : BookInput)
    (h : ∀ b ∈ st.collection, b.bookCode ≠ code) :
    (deleteBook st code).1 = st ∧ (modifyBook st code inp).1 = st ∧
      ((deleteBook st code).2 = Outcome.notFound ∨ (deleteBook st code).2 = Outcome.libraryEmpty) ∧
      ((modifyBook st code inp).2 = Outcome.notFound ∨
        (modifyBook st code inp).2 = Outcome.libraryEmpty) := by
  by_cases hemp : st.collection = []
  · simp [deleteBook, modifyBook, hemp]
  · have hkeep : st.collection.filter (fun book => !(book.bookCode == code)) = st.collection := by
      rw [List.filter_eq_self]
      intro b hb
      simpa using h b hb
    have hfind := (find_code_none code st.collection).mpr h
    simp [deleteBook, modifyBook, hemp, hkeep, hfind]

/-- Witness of C8: code 999 is not among the two books. -/
theorem absent_code_no_mutation_witness :
    (∀ b ∈ twoBooks.collection, b.bookCode ≠ 999) ∧
      (deleteBook twoBooks 999).1 = twoBooks ∧
      (modifyBook twoBooks 999 (sampleInput 999)).1 = twoBooks :=
  ⟨by decide, (absent_code_no_mutation twoBooks 999 (sampleInput 999) (by decide)).1,
    (absent_code_no_mutation twoBooks 999 (sampleInput 999) (by decide)).2.1⟩

/-! ## Delete -/

/-- C9, as stated, fails: with a file that cannot be opened for writing, deleting
code 101 from the one-record sample state reports success and empties the collection,
while the file keeps the line of the deleted record instead of being the header alone. -/
theorem delete_locked_file_counterexample :
    (∃ b ∈ lockedState.collection, b.bookCode = 101) ∧
      (deleteBook lockedState 101).2 = Outcome.done ∧
      (deleteBook lockedState 101).1.collection = [] ∧
      (deleteBook lockedState 101).1.store.content
        ≠ some (header ++ '\n' ::
            encodeLines (lockedState.collection.filter (fun b => b.bookCode ≠ 101))) := by
  decide

/-- C9 (amended). When some record carries the code, `deleteBook` leaves exactly the
records with another code, in their original order, and reports success; and, when the
file can be opened for writing, the file then is the header line followed by one
encoded line per remaining record in that order. -/
theorem delete_removes_matching (st : State) (code : Int)
    (h : ∃ b ∈ st.collection, b.bookCode = code) :
    (deleteBook st code).1.collection = st.collection.filter (fun b => b.bookCode ≠ code) ∧
      (deleteBook st code).2 = Outcome.done ∧
      (st.store.writable = true →
        (deleteBook st code).1.store.content
          = some (header ++ '\n' ::
              encodeLines (st.collection.filter (fun b => b.bookCode ≠ code)))) := by
  obtain ⟨b, hb, hbc⟩ := h
  have hemp : st.collection ≠ [] := List.ne_nil_of_mem hb
  have hfilter : st.collection.filter (fun book => !(book.bookCode == code))
      = st.collection.filter (fun b => b.bookCode ≠ code) := by
    apply List.filter_congr
    intro x _
    by_cases hx : x.bookCode = code <;> simp [hx]
  have hlt : (st.collection.filter (fun b => b.bookCode ≠ code)).length
      < st.collection.length := by
    apply List.length_filter_lt_length_iff_exists.mpr
    exact ⟨b, hb, by simp [hbc]⟩
  unfold deleteBook
  simp only [hemp, if_false, hfilter, hlt, if_true]
  refine ⟨trivial, trivial, fun hw => ?_⟩
  simp only [saveBooksToFile, hw, if_true, fileImage]

/-- Witness of C9 (amended): codes 101 and 102, delete 101, only 102 is left in memory and the
file is the header and one line. -/
theorem delete_removes_matching_witness :
    (∃ b ∈ twoBooks.collection, b.bookCode = 101) ∧
      (deleteBook twoBooks 101).1.collection = [emma] ∧
      (deleteBook twoBooks 101).1.store.content
        = some (header ++ '\n' :: (encodeLine emma ++ ['\n'])) :=
  ⟨by decide,
    (delete_removes_matching twoBooks 101 (by decide)).1.trans (by decide),
    ((delete_removes_matching twoBooks 101 (by decide)).2.2 rfl).trans (by decide)⟩

/-! ## The product rule -/

theorem wrap64_of_isInt64 (v : Int) (h : IsInt64 v) : wrap64 v = v := by
  unfold IsInt64 at h
  unfold wrap64
  omega

theorem isInt64_mul_of_isInt32 (a b : Int) (ha : IsInt32 a) (hb : IsInt32 b) :
    IsInt64 (a * b) := by
  unfold IsInt32 at ha hb
  unfold IsInt64
  constructor <;> nlinarith [mul_nonneg (sub_nonneg.mpr ha.1) (sub_nonneg.mpr hb.1),
    mul_nonneg (sub_nonneg.mpr ha.2) (sub_nonneg.mpr hb.2),
    mul_nonneg (sub_nonneg.mpr ha.1) (sub_nonneg.mpr hb.2),
    mul_nonneg (sub_nonneg.mpr ha.2) (sub_nonneg.mpr hb.1)]

/-- The `long int` product of two `int` values is the exact product. -/
theorem wrap64_mul_int32 (a b : Int) (ha : IsInt32 a) (hb : IsInt32 b) :
    wrap64 (a * b) = a * b :=
  wrap64_of_isInt64 _ (isInt64_mul_of_isInt32 a b ha hb)

theorem addBook_preserves_product (st : State) (inp : BookInput) (hv : inp.Valid)
    (h : ∀ b ∈ st.collection, b.TotalIsProduct) :
    ∀ b ∈ (addBook st inp).1.collection, b.TotalIsProduct := by
  unfold addBook
  cases hacc : (getUserInputForBookDetailsAndCode
      { Library.init with serialNumber := st.nextAutoSerialNumber } st.collection inp).2 with
  | false => simpa [hacc] using h
  | true =>
    obtain ⟨c, hc, -⟩ := getUserInput_accepted _ _ _ hacc
    simp only [hacc, if_true]
    intro b hb
    rcases List.mem_append.mp hb with hb | hb
    · exact h b hb
    · rw [List.mem_singleton] at hb
      rw [hb, hc]
      exact wrap64_mul_int32 _ _ hv.2.2.1 hv.2.2.2.1

theorem deleteBook_preserves_product (st : State) (code : Int)
    (h : ∀ b ∈ st.collection, b.TotalIsProduct) :
    ∀ b ∈ (deleteBook st code).1.collection, b.TotalIsProduct := by
  unfold deleteBook
  by_cases hemp : st.collection = []
  · simp [hemp]
  · simp only [hemp, if_false]
    split
    · intro b hb
      exact h b (List.mem_filter.mp hb).1
    · exact h

theorem modifyBook_preserves_product (st : State) (code : Int) (inp : BookInput)
    (hv : inp.Valid) (h : ∀ b ∈ st.collection, b.TotalIsProduct) :
    ∀ b ∈ (modifyBook st code inp).1.collection, b.TotalIsProduct := by
  unfold modifyBook
  by_cases hemp : st.collection = []
  · simp [hemp]
  · simp only [hemp, if_false]
    cases hfind : st.collection.find? (fun book => book.bookCode == code) with
    | none => exact h
    | some target =>
      obtain ⟨htmem, -⟩ := find_code_some code _ _ hfind
      have hedit : Library.TotalIsProduct
          { (getUserInputForBookDetailsAndCode target
              (st.collection.filter fun b => !(b.serialNumber == target.serialNumber)) inp).1
            with serialNumber := target.serialNumber } := by
        cases hacc : (getUserInputForBookDetailsAndCode target
            (st.collection.filter fun b => !(b.serialNumber == target.serialNumber)) inp).2 with
        | false =>
          obtain ⟨c, hc⟩ := getUserInput_pending _ _ _ hacc
          rw [hc]
          exact h target htmem
        | true =>
          obtain ⟨c, hc, -⟩ := getUserInput_accepted _ _ _ hacc
          rw [hc]
          exact wrap64_mul_int32 _ _ hv.2.2.1 hv.2.2.2.1
      have hall : ∀ b ∈ replaceFirst (fun book => book.bookCode == code)
          { (getUserInputForBookDetailsAndCode target
              (st.collection.filter fun b => !(b.serialNumber == target.serialNumber)) inp).1
            with serialNumber := target.serialNumber } st.collection, b.TotalIsProduct := by
        intro b hb
        rcases mem_replaceFirst _ _ _ _ hb with hb | hb
        · rw [hb]; exact hedit
        · exact h b hb
      dsimp only
      split
      · exact hall
      · exact hall

theorem step_preserves_product (st : State) (op : Op) (hop : op.IsEdit)
    (h : ∀ b ∈ st.collection, b.TotalIsProduct) :
    ∀ b ∈ (step st op).1.collection, b.TotalIsProduct := by
  cases op with
  | add inp => exact addBook_preserves_product st inp hop h
  | delete code => exact deleteBook_preserves_product st code h
  | modify code inp => exact modifyBook_preserves_product st code inp hop h
  | restart => exact absurd hop (by simp [Op.IsEdit])

theorem run_preserves_product : ∀ (ops : List Op) (st : State),
    (∀ op ∈ ops, op.IsEdit) → (∀ b ∈ st.collection, b.TotalIsProduct) →
    ∀ b ∈ (run st ops).collection, b.TotalIsProduct := by
  intro ops
  induction ops with
  | nil => intro st _ h; exact h
  | cons op ops ih =>
    intro st hops h
    have hstep := step_preserves_product st op (hops op (List.mem_cons_self _ _)) h
    unfold run
    split
    · exact hstep
    · exact ih _ (fun o ho => hops o (List.mem_cons_of_mem _ ho)) hstep

/-- C10, as stated, fails: a record line of the backing file whose last field is not
the product is loaded as it stands (cost 3, quantity 4, total 99). -/
theorem total_is_product_counterexample :
    ∃ r ∈ (run (startup staleTotalStore) []).collection, r.totalCost ≠ r.cost * r.qty := by
  decide

/-- C10 (amended). When every record loaded at startup satisfies
`totalCost = cost * qty`, then after any sequence of add, modify and delete whose typed
numbers fit `int`, every record of the collection satisfies it. (The load itself takes
`totalCost` from the seventh field of the line and does not recompute it.) -/
theorem total_is_product (store : Store) (ops : List Op)
    (hload : ∀ b ∈ (startup store).collection, b.totalCost = b.cost * b.qty)
    (hops : ∀ op ∈ ops, op.IsEdit) :
    ∀ r ∈ (run (startup store) ops).collection, r.totalCost = r.cost * r.qty :=
  run_preserves_product ops (startup store) hops hload

/-- Witness of C10 (amended): startup on the file of the two sample books, whose
totals are the products, then an add and a modify. -/
theorem total_is_product_witness :
    (startup twoBooks.store).collection = [dune, emma] ∧
      (∀ b ∈ (startup twoBooks.store).collection, b.totalCost = b.cost * b.qty) ∧
      (∀ op ∈ [Op.add (sampleInput 103), Op.modify 101 (sampleInput 104)], op.IsEdit) ∧
      ∀ r ∈ (run (startup twoBooks.store)
          [Op.add (sampleInput 103), Op.modify 101 (sampleInput 104)]).collection,
        r.totalCost = r.cost * r.qty :=
  ⟨by decide, by decide, by decide,
    total_is_product twoBooks.store [Op.add (sampleInput 103), Op.modify 101 (sampleInput 104)]
      (by decide) (by decide)⟩

/-! ## Serial numbers across adds and restarts -/

theorem wrap32_of_isInt32 (v : Int) (h : IsInt32 v) : wrap32 v = v := by
  unfold IsInt32 at h
  unfold wrap32
  omega

theorem isInt64_wrap64 (v : Int) : IsInt64 (wrap64 v) := by
  unfold IsInt64 wrap64
  omega

theorem foldl_max_ge (l : List Library) : ∀ m : Int,
    m ≤ l.foldl (fun m book => if book.serialNumber > m then book.serialNumber else m) m := by
  induction l with
  | nil => intro m; simp
  | cons b rest ih =>
    intro m
    simp only [List.foldl_cons]
    refine le_trans ?_ (ih _)
    split <;> omega

theorem maxSerialNumber_nonneg (l : List Library) : 0 ≤ maxSerialNumber l :=
  foldl_max_ge l 0

theorem maxSerialNumber_append_one (l : List Library) (b : Library) :
    maxSerialNumber (l ++ [b])
      = if b.serialNumber > maxSerialNumber l then b.serialNumber else maxSerialNumber l := by
  simp [maxSerialNumber, List.foldl_append]

theorem encodeLines_append (l : List Library) (b : Library) :
    encodeLines (l ++ [b]) = encodeLines l ++ (encodeLine b ++ ['\n']) := by
  induction l with
  | nil => simp [encodeLines]
  | cons a rest ih => simp [encodeLines, ih]

theorem fileImage_ne_nil (l : List Library) : (fileImage l).length ≠ 0 := by
  simp [fileImage, header]

/-- Appending to the image of a collection gives the image of the longer collection. -/
theorem append_to_image (l : List Library) (b : Library) (store : Store)
    (hw : store.writable = true) (hc : store.content = some (fileImage l)) :
    (appendBookToFile b store).content = some (fileImage (l ++ [b])) := by
  simp only [appendBookToFile, hw, if_true, hc, Option.getD_some, fileImage_ne_nil l, if_false]
  simp [fileImage, encodeLines_append]

/-- Appending to a missing or empty file writes the header first. -/
theorem append_to_empty (b : Library) (store : Store) (hw : store.writable = true)
    (hc : store.content = none ∨ store.content = some []) :
    (appendBookToFile b store).content = some (fileImage [b]) := by
  rcases hc with hc | hc <;>
    simp [appendBookToFile, hw, hc, fileImage, encodeLines]

theorem append_writable (b : Library) (store : Store) :
    (appendBookToFile b store).writable = store.writable := by
  unfold appendBookToFile
  split <;> rfl

/-- An add with a code no record carries is accepted at the first prompt. -/
theorem addBook_fresh_code (st : State) (inp : BookInput) (hv : inp.Valid)
    (hfresh : ∀ e ∈ st.collection, e.bookCode ≠ inp.bookCode) :
    addBook st inp =
      ({ collection := st.collection ++ [addedBook st inp],
         nextAutoSerialNumber := wrap32 (st.nextAutoSerialNumber + 1),
         store := appendBookToFile (addedBook st inp) st.store }, Outcome.done) := by
  have hnd : isDuplicate
      { ({ ({ Library.init with serialNumber := st.nextAutoSerialNumber } : Library) with
            bookName := inp.bookName, authorName := inp.authorName } : Library) with
          bookCode := inp.bookCode } st.collection = false :=
    (isDuplicate_eq_false_iff _ _).mpr (fun e he _ => hfresh e he)
  have key := readBookCode_fresh _ _ _ inp.retryCodes hnd
  have hprod := wrap64_mul_int32 _ _ hv.2.2.1 hv.2.2.2.1
  unfold addBook getUserInputForBookDetailsAndCode
  dsimp only at key ⊢
  rw [key]
  simp [addedBook, hprod, Library.init]

/-- A synced state with room in the counter stays synced under an accepted add. -/
theorem addBook_synced (st : State) (inp : BookInput) (hs : Synced st) (hv : inp.Valid)
    (hn : ',' ∉ inp.bookName) (ha : ',' ∉ inp.authorName)
    (hroom : st.nextAutoSerialNumber + 1 ≤ 2147483647) :
    Synced { collection := st.collection ++ [addedBook st inp],
             nextAutoSerialNumber := wrap32 (st.nextAutoSerialNumber + 1),
             store := appendBookToFile (addedBook st inp) st.store } := by
  obtain ⟨hw, hfile, hbooks, hnext⟩ := hs
  have hpos := maxSerialNumber_nonneg st.collection
  have hwrap : wrap32 (st.nextAutoSerialNumber + 1) = st.nextAutoSerialNumber + 1 :=
    wrap32_of_isInt32 _ ⟨by omega, hroom⟩
  refine ⟨?_, ?_, ?_, ?_⟩
  · simpa [append_writable] using hw
  · left
    rcases hfile with hfile | ⟨hnil, hfile⟩
    · exact append_to_image _ _ _ hw hfile
    · simpa [hnil] using append_to_empty (addedBook st inp) st.store hw hfile
  · intro b hb
    rcases List.mem_append.mp hb with hb | hb
    · exact hbooks b hb
    · rw [List.mem_singleton] at hb
      subst hb
      refine ⟨⟨⟨by simp only [addedBook]; omega, by simp only [addedBook]; omega⟩, hv.1,
        hv.2.2.1, hv.2.2.2.1, ?_⟩, hn, ha, hv.2.2.2.2.1, hv.2.2.2.2.2⟩
      exact isInt64_mul_of_isInt32 _ _ hv.2.2.1 hv.2.2.2.1
  · simp only [hwrap, maxSerialNumber_append_one, addedBook]
    have : st.nextAutoSerialNumber > maxSerialNumber st.collection := by omega
    simp [this]

/-- Restarting from a synced state gives the same state back. -/
theorem startup_synced (st : State) (hs : Synced st)
    (hroom : st.nextAutoSerialNumber ≤ 2147483647) : startup st.store = st := by
  obtain ⟨hw, hfile, hbooks, hnext⟩ := hs
  have hpos := maxSerialNumber_nonneg st.collection
  have hload : loadBooksFromFile [] st.store.content = st.collection := by
    rcases hfile with hfile | ⟨hnil, hfile | hfile⟩
    · rw [hfile]; exact load_fileImage [] _ hbooks
    · rw [hfile, hnil]; rfl
    · rw [hfile, hnil]; rfl
  unfold startup
  simp only [hload]
  by_cases hemp : st.collection = []
  · have : st.nextAutoSerialNumber = 1 := by rw [hnext, hemp]; rfl
    cases st
    simp_all
  · have : wrap32 (maxSerialNumber st.collection + 1) = st.nextAutoSerialNumber := by
      rw [← hnext]; exact wrap32_of_isInt32 _ ⟨by omega, hroom⟩
    cases st
    simp_all

/-- The serial numbers handed out from a synced state by clean adds with new codes and
restarts count upwards from the counter. -/
theorem assignedIds_synced : ∀ (ops : List Op) (st : State), Synced st →
    (∀ op ∈ ops, op.IsCleanAddOrRestart) → (addCodes ops).Nodup →
    (∀ e ∈ st.collection, e.bookCode ∉ addCodes ops) →
    st.nextAutoSerialNumber + ops.length ≤ 2147483647 →
    assignedIds st ops = countUp st.nextAutoSerialNumber (addCodes ops).length := by
  intro ops
  induction ops with
  | nil => intro st _ _ _ _ _; rfl
  | cons op ops ih =>
    intro st hs hops hnd hcodes hroom
    have hops' : ∀ o ∈ ops, o.IsCleanAddOrRestart := fun o ho => hops o (List.mem_cons_of_mem _ ho)
    have hop := hops op (List.mem_cons_self _ _)
    simp only [List.length_cons, Nat.cast_add, Nat.cast_one] at hroom
    cases op with
    | add inp =>
      obtain ⟨hv, hn, ha⟩ := hop
      simp only [addCodes, List.nodup_cons] at hnd hcodes
      have hfresh : ∀ e ∈ st.collection, e.bookCode ≠ inp.bookCode :=
        fun e he h => hcodes e he (h ▸ List.mem_cons_self _ _)
      have hadd := addBook_fresh_code st inp hv hfresh
      have hs' := addBook_synced st inp hs hv hn ha (by omega)
      have hpos := maxSerialNumber_nonneg st.collection
      have hwrap : wrap32 (st.nextAutoSerialNumber + 1) = st.nextAutoSerialNumber + 1 :=
        wrap32_of_isInt32 _ ⟨by have := hs.2.2.2; omega, by omega⟩
      have hrest := ih _ hs' hops' hnd.2 (by
        intro e he
        rcases List.mem_append.mp he with he | he
        · exact fun h => hcodes e he (List.mem_cons_of_mem _ h)
        · rw [List.mem_singleton] at he
          subst he
          exact hnd.1) (by simp only [hwrap]; omega)
      simp only [assignedIds, hadd, addCodes, List.length_cons, countUp]
      rw [if_neg (by decide), hrest, hwrap]
    | restart =>
      have hst := startup_synced st hs (by omega)
      simp only [assignedIds, step, hst, addCodes]
      rw [if_neg (by decide)]
      exact ih st hs hops' (by simpa [addCodes] using hnd)
        (by simpa [addCodes] using hcodes) (by omega)
    | delete code => exact absurd hop (by simp [Op.IsCleanAddOrRestart])
    | modify code inp => exact absurd hop (by simp [Op.IsCleanAddOrRestart])
theorem countUp_ge : ∀ (n : Nat) (start : Int), ∀ i ∈ countUp start n, start ≤ i := by
  intro n
  induction n with
  | zero => intro start i hi; simp [countUp] at hi
  | succ n ih =>
    intro start i hi
    simp only [countUp, List.mem_cons] at hi
    rcases hi with hi | hi
    · omega
    · have := ih (start + 1) i hi
      omega

theorem countUp_pairwise : ∀ (n : Nat) (start : Int), (countUp start n).Pairwise (· < ·) := by
  intro n
  induction n with
  | zero => intro start; simp [countUp]
  | succ n ih =>
    intro start
    simp only [countUp, List.pairwise_cons]
    refine ⟨fun i hi => ?_, ih (start + 1)⟩
    have := countUp_ge n (start + 1) i hi
    omega

theorem startup_empty_store (store : Store) (hw : store.writable = true)
    (hempty : store.content = none ∨ store.content = some [] ∨
      store.content = some (fileImage [])) :
    Synced (startup store) ∧ (startup store).nextAutoSerialNumber = 1 ∧
      (startup store).collection = [] := by
  have hload : loadBooksFromFile [] store.content = [] := by
    rcases hempty with h | h | h
    · rw [h]; rfl
    · rw [h]; rfl
    · rw [h]; exact load_fileImage [] [] (by simp)
  refine ⟨⟨hw, ?_, ?_, ?_⟩, ?_, ?_⟩
  · have hcoll : (startup store).collection = [] := by simp [startup, hload]
    have hst : (startup store).store = store := rfl
    rw [hcoll, hst]
    rcases hempty with h | h | h
    · exact Or.inr ⟨rfl, Or.inl h⟩
    · exact Or.inr ⟨rfl, Or.inr h⟩
    · exact Or.inl h
  · simp [startup, hload]
  · simp [startup, hload, maxSerialNumber]
  · simp [startup, hload]
  · simp [startup, hload]

/-- C3, as stated, fails: a title with a comma shifts the columns of its line, the
line is rejected at the restart, the collection comes back empty, and the next add
(with another code) is given serial number 1 again. -/
theorem ids_repeat_after_restart_counterexample :
    (addCodes [Op.add (titledInput "a,b" 101), Op.restart,
        Op.add (titledInput "c" 102)]).Nodup ∧
      assignedIds (startup freshStore)
        [Op.add (titledInput "a,b" 101), Op.restart, Op.add (titledInput "c" 102)] = [1, 1] := by
  decide

/-- C3 (amended). Starting from an empty (missing, zero-length or header-only) store
that can be written, for every sequence of adds and restarts in which the adds have
pairwise distinct codes, typed numbers that fit `int` and names without comma or line
end, and which is shorter than 2^31 - 1, the serial numbers assigned are 1, 2, 3, ...
in this order: strictly increasing, never repeated, the first one 1, and unchanged by
the restarts in between. -/
theorem ids_count_up_over_restarts (store : Store) (ops : List Op)
    (hw : store.writable = true)
    (hempty : store.content = none ∨ store.content = some [] ∨
      store.content = some (fileImage []))
    (hops : ∀ op ∈ ops, op.IsCleanAddOrRestart) (hcodes : (addCodes ops).Nodup)
    (hlen : ops.length < 2147483647) :
    assignedIds (startup store) ops = countUp 1 (addCodes ops).length ∧
      (assignedIds (startup store) ops).Pairwise (· < ·) := by
  obtain ⟨hs, hnext, hcoll⟩ := startup_empty_store store hw hempty
  have h := assignedIds_synced ops (startup store) hs hops hcodes
    (by rw [hcoll]; intro e he; cases he) (by rw [hnext]; omega)
  rw [hnext] at h
  exact ⟨h, h ▸ countUp_pairwise _ _⟩

/-- Witness of C3 (amended): add, restart, add gives the serial numbers 1 and 2. -/
theorem ids_count_up_over_restarts_witness :
    (∀ op ∈ [Op.add (titledInput "Dune" 101), Op.restart, Op.add (titledInput "Emma" 102)],
        op.IsCleanAddOrRestart) ∧
      assignedIds (startup freshStore)
        [Op.add (titledInput "Dune" 101), Op.restart, Op.add (titledInput "Emma" 102)]
        = [1, 2] :=
  ⟨by decide,
    (ids_count_up_over_restarts freshStore
      [Op.add (titledInput "Dune" 101), Op.restart, Op.add (titledInput "Emma" 102)]
      rfl (Or.inl rfl) (by decide) (by decide) (by decide)).1.trans (by decide)⟩

/-! ## Serial numbers and deletion -/

theorem addBook_counter (st : State) (inp : BookInput) :
    (addBook st inp).1.nextAutoSerialNumber = wrap32 (st.nextAutoSerialNumber + 1) := by
  unfold addBook
  dsimp only
  split <;> rfl

theorem deleteBook_counter (st : State) (code : Int) :
    (deleteBook st code).1.nextAutoSerialNumber = st.nextAutoSerialNumber := by
  unfold deleteBook
  dsimp only
  split
  · rfl
  · split <;> rfl

theorem modifyBook_counter (st : State) (code : Int) (inp : BookInput) :
    (modifyBook st code inp).1.nextAutoSerialNumber = st.nextAutoSerialNumber := by
  unfold modifyBook
  dsimp only
  split
  · rfl
  · split
    · rfl
    · split <;> rfl

theorem foldl_max_ge_serial (l : List Library) : ∀ (m : Int), ∀ b ∈ l,
    b.serialNumber
      ≤ l.foldl (fun m book => if book.serialNumber > m then book.serialNumber else m) m := by
  induction l with
  | nil => intro m b hb; cases hb
  | cons a rest ih =>
    intro m b hb
    simp only [List.foldl_cons]
    rcases List.mem_cons.mp hb with hb | hb
    · subst hb
      refine le_trans ?_ (foldl_max_ge rest _)
      split <;> omega
    · exact ih _ b hb

/-- The scan of `main` finds a value no serial number exceeds. -/
theorem serial_le_maxSerialNumber (l : List Library) :
    ∀ b ∈ l, b.serialNumber ≤ maxSerialNumber l :=
  foldl_max_ge_serial l 0

/-- Unless the largest `int` is among the loaded serial numbers, the counter after
startup is the largest one found (at least 0) plus one. -/
theorem startup_counter (store : Store)
    (h : maxSerialNumber (startup store).collection < 2147483647) :
    (startup store).nextAutoSerialNumber = maxSerialNumber (startup store).collection + 1 := by
  have hpos := maxSerialNumber_nonneg (startup store).collection
  unfold startup at h ⊢
  dsimp only at h ⊢
  split
  · next hnil => rw [hnil]; rfl
  · exact wrap32_of_isInt32 _ ⟨by unfold startup at hpos; dsimp only at hpos; omega, by omega⟩

/-- Without restart and without overflow of the counter, the serial numbers handed out
increase strictly and start at the counter. -/
theorem assignedIds_no_restart : ∀ (ops : List Op) (st : State),
    (∀ op ∈ ops, op ≠ Op.restart) → -2147483648 ≤ st.nextAutoSerialNumber →
    st.nextAutoSerialNumber + ops.length ≤ 2147483647 →
    (assignedIds st ops).Pairwise (· < ·) ∧
      ∀ i ∈ assignedIds st ops, st.nextAutoSerialNumber ≤ i := by
  intro ops
  induction ops with
  | nil => intro st _ _ _; simp [assignedIds]
  | cons op ops ih =>
    intro st hno hlow hroom
    have hno' : ∀ o ∈ ops, o ≠ Op.restart := fun o ho => hno o (List.mem_cons_of_mem _ ho)
    simp only [List.length_cons, Nat.cast_add, Nat.cast_one] at hroom
    cases op with
    | add inp =>
      have hc : (addBook st inp).1.nextAutoSerialNumber = st.nextAutoSerialNumber + 1 := by
        rw [addBook_counter]
        exact wrap32_of_isInt32 _ ⟨by omega, by omega⟩
      have hrest := ih (addBook st inp).1 hno' (by omega) (by omega)
      simp only [assignedIds]
      split
      · simp
      · rw [List.pairwise_cons]
        refine ⟨⟨fun i hi => ?_, hrest.1⟩, fun i hi => ?_⟩
        · have := hrest.2 i hi
          omega
        · rcases List.mem_cons.mp hi with hi | hi
          · omega
          · have := hrest.2 i hi
            omega
    | delete code =>
      have hc := deleteBook_counter st code
      have hrest := ih (deleteBook st code).1 hno' (by omega) (by omega)
      simp only [assignedIds, step]
      split
      · simp
      · exact ⟨hrest.1, fun i hi => by have := hrest.2 i hi; omega⟩
    | modify code inp =>
      have hc := modifyBook_counter st code inp
      have hrest := ih (modifyBook st code inp).1 hno' (by omega) (by omega)
      simp only [assignedIds, step]
      split
      · simp
      · exact ⟨hrest.1, fun i hi => by have := hrest.2 i hi; omega⟩
    | restart => exact absurd rfl (hno _ (List.mem_cons_self _ _))

/-- C4, as stated, fails: after two adds the second record is deleted and the program
restarted; the counter is recomputed from the surviving record, and the next add is
given serial number 2, the one the deleted record had. -/
theorem id_reused_after_delete_and_restart_counterexample :
    assignedIds (startup freshStore)
      [Op.add (sampleInput 101), Op.add (sampleInput 102), Op.delete 102, Op.restart,
        Op.add (sampleInput 103)] = [1, 2, 2] := by
  decide

/-- C4 (amended). Within one run of the program (startup from any backing file, then
any sequence of add, delete and modify, no restart) in which the counter does not pass
the largest `int`, the serial number assigned by an add is greater than every serial
number assigned by an earlier add and than every serial number loaded at startup; so it
is not reused, also when the record has been deleted in between. -/
theorem id_not_reused_within_run (store : Store) (ops : List Op)
    (hno : ∀ op ∈ ops, op ≠ Op.restart)
    (hroom : maxSerialNumber (startup store).collection + ops.length < 2147483647) :
    (assignedIds (startup store) ops).Pairwise (· < ·) ∧
      ∀ i ∈ assignedIds (startup store) ops, ∀ b ∈ (startup store).collection,
        b.serialNumber < i := by
  have hpos := maxSerialNumber_nonneg (startup store).collection
  have hnext := startup_counter store (by omega)
  have h := assignedIds_no_restart ops (startup store) hno (by omega) (by omega)
  refine ⟨h.1, fun i hi b hb => ?_⟩
  have h1 := serial_le_maxSerialNumber _ b hb
  have h2 := h.2 i hi
  omega

/-- Witness of C4 (amended): after startup on a two-record file, add, delete the new
record, add again: 3 then 4. -/
theorem id_not_reused_within_run_witness :
    assignedIds (startup twoBooks.store)
        [Op.add (sampleInput 103), Op.delete 103, Op.add (sampleInput 103)] = [3, 4] ∧
      (assignedIds (startup twoBooks.store)
        [Op.add (sampleInput 103), Op.delete 103, Op.add (sampleInput 103)]).Pairwise
          (· < ·) :=
  ⟨by decide,
    (id_not_reused_within_run twoBooks.store
      [Op.add (sampleInput 103), Op.delete 103, Op.add (sampleInput 103)]
      (by decide) (by decide)).1⟩

/-! ## A file that cannot be written -/

theorem addBook_locked (st : State) (inp : BookInput) (h : st.store.writable = false) :
    (addBook st inp).1.store = st.store ∧
      (addBook st inp).1.collection = (addBook st.unlocked inp).1.collection ∧
      (addBook st inp).2 = (addBook st.unlocked inp).2 := by
  unfold addBook State.unlocked
  dsimp only
  split <;> simp [appendBookToFile, h]

theorem deleteBook_locked (st : State) (code : Int) (h : st.store.writable = false) :
    (deleteBook st code).1.store = st.store ∧
      (deleteBook st code).1.collection = (deleteBook st.unlocked code).1.collection ∧
      (deleteBook st code).2 = (deleteBook st.unlocked code).2 := by
  unfold deleteBook State.unlocked
  dsimp only
  split
  · simp
  · split <;> simp [saveBooksToFile, h]

theorem modifyBook_locked (st : State) (code : Int) (inp : BookInput)
    (h : st.store.writable = false) :
    (modifyBook st code inp).1.store = st.store ∧
      (modifyBook st code inp).1.collection = (modifyBook st.unlocked code inp).1.collection ∧
      (modifyBook st code inp).2 = (modifyBook st.unlocked code inp).2 := by
  unfold modifyBook State.unlocked
  dsimp only
  split
  · simp
  · split
    · simp
    · split <;> simp [saveBooksToFile, h]

/-- C11, as stated, fails: with a file that cannot be opened for writing, an add still
appends its record to the collection, a delete still removes the record and a modify
still overwrites it. -/
theorem locked_file_counterexample :
    lockedState.store.writable = false ∧
      (addBook lockedState (sampleInput 102)).1.collection ≠ lockedState.collection ∧
      (deleteBook lockedState 101).1.collection ≠ lockedState.collection ∧
      (modifyBook lockedState 101 (sampleInput 101)).1.collection ≠ lockedState.collection := by
  decide

/-- C11 (amended). When the backing file cannot be opened for writing, add, delete and
modify leave the file as it was, while the collection in memory and the reported
outcome are exactly those of the same call with a writable file (the record is
appended, removed or replaced all the same). -/
theorem locked_file_only_skips_write (st : State) (op : Op)
    (hlocked : st.store.writable = false) (hop : op ≠ Op.restart) :
    (step st op).1.store = st.store ∧
      (step st op).1.collection = (step st.unlocked op).1.collection ∧
      (step st op).2 = (step st.unlocked op).2 := by
  cases op with
  | add inp => exact addBook_locked st inp hlocked
  | delete code => exact deleteBook_locked st code hlocked
  | modify code inp => exact modifyBook_locked st code inp hlocked
  | restart => exact absurd rfl hop

/-- Witness of C11 (amended): an add on the locked sample state. -/
theorem locked_file_only_skips_write_witness :
    lockedState.store.writable = false ∧
      (step lockedState (Op.add (sampleInput 102))).1.store = lockedState.store ∧
      (step lockedState (Op.add (sampleInput 102))).1.collection
        = (step lockedState.unlocked (Op.add (sampleInput 102))).1.collection :=
  ⟨rfl, (locked_file_only_skips_write lockedState (Op.add (sampleInput 102)) rfl
      (by decide)).1,
    (locked_file_only_skips_write lockedState (Op.add (sampleInput 102)) rfl
      (by decide)).2.1⟩

/-! ## Search by author -/

theorem searchLoop_spec (name : Str) : ∀ (l : List Library) (k : Int) (found : Bool),
    (searchLoop name l k found).1.map Prod.snd = l.filter (fun b => b.authorName = name) ∧
      (searchLoop name l k found).2 = (found || l.any (fun b => b.authorName = name)) := by
  intro l
  induction l with
  | nil => intro k found; simp [searchLoop]
  | cons b rest ih =>
    intro k found
    by_cases hb : b.authorName = name
    · have h1 := ih (wrap32 (k + 1)) true
      simp [searchLoop, hb, h1.1, h1.2]
    · have h1 := ih k found
      simp [searchLoop, hb, h1.1, h1.2]

/-- C12. `searchByAuthor` displays exactly the records whose author equals the name,
character for character, in collection order; for an empty collection it reports
library-empty, and for a non-empty collection without a match it displays nothing and
reports no-books-for-author, a different report. -/
theorem search_exact_matches (collection : List Library) (name : Str) :
    (searchByAuthor collection name).1.map Prod.snd
        = collection.filter (fun b => b.authorName = name) ∧
      (collection = [] → (searchByAuthor collection name).2 = SearchReport.libraryEmpty) ∧
      (collection ≠ [] → (∀ b ∈ collection, b.authorName ≠ name) →
        (searchByAuthor collection name).1 = [] ∧
          (searchByAuthor collection name).2 = SearchReport.noBooksForAuthor) ∧
      (collection ≠ [] → (∃ b ∈ collection, b.authorName = name) →
        (searchByAuthor collection name).2 = SearchReport.listed) ∧
      SearchReport.noBooksForAuthor ≠ SearchReport.libraryEmpty := by
  have hspec := searchLoop_spec name collection 1 false
  refine ⟨?_, ?_, ?_, ?_, by decide⟩
  · by_cases hemp : collection = []
    · simp [searchByAuthor, hemp]
    · simp only [searchByAuthor, hemp, if_false]
      exact hspec.1
  · intro hemp
    simp [searchByAuthor, hemp]
  · intro hemp hnone
    have hfilter : collection.filter (fun b => b.authorName = name) = [] := by
      rw [List.filter_eq_nil_iff]
      intro b hb
      simpa using hnone b hb
    have hany : collection.any (fun b => b.authorName = name) = false := by
      rw [List.any_eq_false]
      intro b hb
      simpa using hnone b hb
    have h1 : (searchLoop name collection 1 false).1 = [] := by
      have := hspec.1
      rw [hfilter] at this
      exact List.map_eq_nil_iff.mp this
    have h2 : (searchLoop name collection 1 false).2 = false := by
      rw [hspec.2, hany]; rfl
    simp [searchByAuthor, hemp, h1, h2]
  · intro hemp hsome
    have hany : collection.any (fun b => b.authorName = name) = true := by
      rw [List.any_eq_true]
      obtain ⟨b, hb, hbn⟩ := hsome
      exact ⟨b, hb, by simpa using hbn⟩
    have h2 : (searchLoop name collection 1 false).2 = true := by
      rw [hspec.2, hany]; rfl
    simp [searchByAuthor, hemp, h2]

/-- Witness of C12: the author is matched with its exact spelling only. -/
theorem search_exact_matches_witness :
    (searchByAuthor [dune, emma] "Herbert".toList).1.map Prod.snd = [dune] ∧
      (searchByAuthor [dune, emma] "herbert".toList).1 = [] ∧
      (searchByAuthor [emma] "Herbert".toList).2 = SearchReport.noBooksForAuthor ∧
      (searchByAuthor [] "Herbert".toList).2 = SearchReport.libraryEmpty :=
  ⟨(search_exact_matches [dune, emma] "Herbert".toList).1.trans (by decide), by decide,
    by decide, by decide⟩

/-! ## Modify -/

/-- The code the loop ends with is one of the typed codes, and it is the first typed
code whenever that one passes the scan. -/
theorem readBookCode_typed (book : Library) (existingBooks : List Library) :
    ∀ (retries : List Int) (code : Int),
      ∃ c ∈ code :: retries,
        (readBookCode book existingBooks code retries).1 = { book with bookCode := c } ∧
        (isDuplicate { book with bookCode := code } existingBooks = false → c = code) := by
  intro retries
  induction retries with
  | nil =>
    intro code
    exact ⟨code, List.mem_cons_self _ _, rfl, fun _ => rfl⟩
  | cons next more ih =>
    intro code
    cases h : isDuplicate { book with bookCode := code } existingBooks with
    | true =>
      obtain ⟨c, hc, heq, -⟩ := ih next
      refine ⟨c, List.mem_cons_of_mem _ hc, ?_, fun hf => by simp at hf⟩
      simp only [readBookCode, h, if_true]
      exact heq
    | false =>
      refine ⟨code, List.mem_cons_self _ _, ?_, fun _ => rfl⟩
      simp [readBookCode, h]

/-- The edited record `modifyBook` writes over the record found, when the prompt
function returns. -/
theorem getUserInput_accepted_typed (book : Library) (existingBooks : List Library)
    (inp : BookInput)
    (h : (getUserInputForBookDetailsAndCode book existingBooks inp).2 = true) :
    ∃ c ∈ inp.bookCode :: inp.retryCodes,
      (getUserInputForBookDetailsAndCode book existingBooks inp).1
        = { serialNumber := book.serialNumber, bookCode := c, bookName := inp.bookName,
            authorName := inp.authorName, cost := inp.cost, qty := inp.qty,
            totalCost := wrap64 (inp.cost * inp.qty) } ∧
      ((∀ e ∈ existingBooks, e.serialNumber ≠ book.serialNumber → e.bookCode ≠ inp.bookCode) →
        c = inp.bookCode) := by
  obtain ⟨c, hmem, hc, hfirst⟩ := readBookCode_typed
    { book with bookName := inp.bookName, authorName := inp.authorName } existingBooks
    inp.retryCodes inp.bookCode
  rw [isDuplicate_eq_false_iff] at hfirst
  unfold getUserInputForBookDetailsAndCode at h ⊢
  dsimp only at h hc hfirst ⊢
  generalize readBookCode _ existingBooks inp.bookCode inp.retryCodes = r at h hc ⊢
  obtain ⟨r1, r2⟩ := r
  dsimp only at h hc ⊢
  cases r2 with
  | false => simp at h
  | true =>
    subst hc
    exact ⟨c, hmem, by simp, hfirst⟩

/-- Where `find_if` stops, and what overwriting that element gives. -/
theorem replaceFirst_split (p : Library → Bool) (new : Library) :
    ∀ (l : List Library) (target : Library), l.find? p = some target →
      ∃ pre post, l = pre ++ target :: post ∧ (∀ b ∈ pre, p b = false) ∧
        replaceFirst p new l = pre ++ new :: post := by
  intro l
  induction l with
  | nil => intro target h; simp at h
  | cons b rest ih =>
    intro target h
    cases hp : p b with
    | true =>
      rw [List.find?_cons_of_pos _ hp] at h
      cases h
      exact ⟨[], rest, rfl, by simp, by simp [replaceFirst, hp]⟩
    | false =>
      rw [List.find?_cons_of_neg _ (by simp [hp])] at h
      obtain ⟨pre, post, hl, hpre, hrep⟩ := ih target h
      refine ⟨b :: pre, post, by simp [hl], ?_, by simp [replaceFirst, hp, hrep]⟩
      intro x hx
      rcases List.mem_cons.mp hx with hx | hx
      · rw [hx]; exact hp
      · exact hpre x hx

/-- C13. For a collection that holds a record with code `c` and new fields that are
accepted (price and quantity fitting `int`), `modifyBook` replaces the first record
with code `c`, at its position, by the record with the same serial number, the accepted
code (one of the typed codes, the first typed one when it passes the scan), the typed
title, author, price and quantity and `totalCost` their product; the records before and
after it, their order and the length are unchanged. -/
theorem modify_replaces_first_match (st : State) (c : Int) (inp : BookInput)
    (_hfound : ∃ b ∈ st.collection, b.bookCode = c)
    (hcost : IsInt32 inp.cost) (hqty : IsInt32 inp.qty)
    (hdone : (modifyBook st c inp).2 = Outcome.done) :
    ∃ (pre : List Library) (target : Library) (post : List Library) (newCode : Int),
      st.collection = pre ++ target :: post ∧ (∀ b ∈ pre, b.bookCode ≠ c) ∧
        target.bookCode = c ∧ newCode ∈ inp.bookCode :: inp.retryCodes ∧
        ((∀ e ∈ st.collection, e.serialNumber ≠ target.serialNumber →
            e.bookCode ≠ inp.bookCode) → newCode = inp.bookCode) ∧
        (modifyBook st c inp).1.collection
          = pre ++ { serialNumber := target.serialNumber, bookCode := newCode,
                     bookName := inp.bookName, authorName := inp.authorName,
                     cost := inp.cost, qty := inp.qty,
                     totalCost := inp.cost * inp.qty } :: post ∧
        (modifyBook st c inp).1.collection.length = st.collection.length := by
  unfold modifyBook at hdone ⊢
  by_cases hemp : st.collection = []
  · simp [hemp] at hdone
  · simp only [hemp, if_false] at hdone ⊢
    cases hfind : st.collection.find? (fun book => book.bookCode == c) with
    | none => simp [hfind] at hdone
    | some target =>
      simp only [hfind] at hdone ⊢
      obtain ⟨-, htcode⟩ := find_code_some c _ _ hfind
      cases hacc : (getUserInputForBookDetailsAndCode target
          (st.collection.filter fun b => !(b.serialNumber == target.serialNumber)) inp).2 with
      | false => simp [hacc] at hdone
      | true =>
        obtain ⟨newCode, hmem, hrec, hfirst⟩ := getUserInput_accepted_typed _ _ _ hacc
        obtain ⟨pre, post, hl, hpre, hrep⟩ := replaceFirst_split
          (fun book => book.bookCode == c)
          { (getUserInputForBookDetailsAndCode target
              (st.collection.filter fun b => !(b.serialNumber == target.serialNumber)) inp).1
            with serialNumber := target.serialNumber } st.collection target hfind
        refine ⟨pre, target, post, newCode, hl, ?_, htcode, hmem, ?_, ?_, ?_⟩
        · intro b hb
          simpa using hpre b hb
        · intro hfree
          apply hfirst
          intro e he hs
          exact hfree e (List.mem_filter.mp he).1 hs
        · simp only [hacc, if_true]
          rw [hrep, hrec, wrap64_mul_int32 _ _ hcost hqty]
        · simp only [hacc, if_true]
          rw [hrep, hl]
          simp

/-- Witness of C13: the first of two books gets new fields and the new code 103. -/
theorem modify_replaces_first_match_witness :
    (∃ b ∈ twoBooks.collection, b.bookCode = 101) ∧
      (modifyBook twoBooks 101 (sampleInput 103)).2 = Outcome.done ∧
      ∃ (pre : List Library) (target : Library) (post : List Library) (newCode : Int),
        twoBooks.collection = pre ++ target :: post ∧ (∀ b ∈ pre, b.bookCode ≠ 101) ∧
          target.bookCode = 101 ∧ newCode ∈ (sampleInput 103).bookCode :: (sampleInput 103).retryCodes ∧
          ((∀ e ∈ twoBooks.collection, e.serialNumber ≠ target.serialNumber →
              e.bookCode ≠ (sampleInput 103).bookCode) → newCode = (sampleInput 103).bookCode) ∧
          (modifyBook twoBooks 101 (sampleInput 103)).1.collection
            = pre ++ { serialNumber := target.serialNumber, bookCode := newCode,
                       bookName := (sampleInput 103).bookName,
                       authorName := (sampleInput 103).authorName,
                       cost := (sampleInput 103).cost, qty := (sampleInput 103).qty,
                       totalCost := (sampleInput 103).cost * (sampleInput 103).qty } :: post ∧
          (modifyBook twoBooks 101 (sampleInput 103)).1.collection.length
            = twoBooks.collection.length :=
  ⟨by decide, by decide,
    modify_replaces_first_match twoBooks 101 (sampleInput 103) (by decide) (by decide)
      (by decide) (by decide)⟩

/-! ## The counter after startup -/

theorem foldl_max_mem (l : List Library) : ∀ m : Int,
    l.foldl (fun m book => if book.serialNumber > m then book.serialNumber else m) m = m ∨
      ∃ b ∈ l, b.serialNumber
        = l.foldl (fun m book => if book.serialNumber > m then book.serialNumber else m) m := by
  induction l with
  | nil => intro m; exact Or.inl rfl
  | cons a rest ih =>
    intro m
    simp only [List.foldl_cons]
    by_cases ha : a.serialNumber > m
    · simp only [ha, if_true]
      rcases ih a.serialNumber with h | ⟨b, hb, h⟩
      · exact Or.inr ⟨a, List.mem_cons_self _ _, h.symm⟩
      · exact Or.inr ⟨b, List.mem_cons_of_mem _ hb, h⟩
    · simp only [ha, if_false]
      rcases ih m with h | ⟨b, hb, h⟩
      · exact Or.inl h
      · exact Or.inr ⟨b, List.mem_cons_of_mem _ hb, h⟩

/-- The scan yields the largest serial number when that is not negative. -/
theorem maxSerialNumber_eq_max (l : List Library) (m : Int) (hm : ∃ b ∈ l, b.serialNumber = m)
    (hmax : ∀ b ∈ l, b.serialNumber ≤ m) (hpos : 0 ≤ m) : maxSerialNumber l = m := by
  obtain ⟨b, hb, hbm⟩ := hm
  have h1 := serial_le_maxSerialNumber l b hb
  rcases foldl_max_mem l 0 with h | ⟨x, hx, h⟩
  · have : maxSerialNumber l = 0 := h
    omega
  · have h2 := hmax x hx
    have : maxSerialNumber l = x.serialNumber := h.symm
    omega

/-- The scan yields 0 when every serial number is negative. -/
theorem maxSerialNumber_all_negative (l : List Library) (h : ∀ b ∈ l, b.serialNumber < 0) :
    maxSerialNumber l = 0 := by
  rcases foldl_max_mem l 0 with h0 | ⟨x, hx, hx'⟩
  · exact h0
  · have h1 := h x hx
    have h2 := maxSerialNumber_nonneg l
    have : maxSerialNumber l = x.serialNumber := hx'.symm
    omega

/-- C14, as stated, fails: with a single loaded record of serial number -5 the scan,
which starts from 0, leaves the counter at 1, not at -5 + 1. -/
theorem startup_counter_negative_counterexample :
    (startup negativeSerialStore).collection ≠ [] ∧
      (∃ b ∈ (startup negativeSerialStore).collection, b.serialNumber = -5) ∧
      (∀ b ∈ (startup negativeSerialStore).collection, b.serialNumber ≤ -5) ∧
      (startup negativeSerialStore).nextAutoSerialNumber = 1 ∧
      (startup negativeSerialStore).nextAutoSerialNumber ≠ -5 + 1 := by
  decide

/-- C14 (amended). After startup the counter is 1 when the loaded collection is empty;
it is one more than the largest loaded serial number when that number is at least 0
and below the largest `int`; and it is 1 when every loaded serial number is negative
(the scan starts from 0). -/
theorem startup_counter_value (store : Store) :
    ((startup store).collection = [] → (startup store).nextAutoSerialNumber = 1) ∧
      (∀ m : Int, (∃ b ∈ (startup store).collection, b.serialNumber = m) →
        (∀ b ∈ (startup store).collection, b.serialNumber ≤ m) → 0 ≤ m → m < 2147483647 →
        (startup store).nextAutoSerialNumber = m + 1) ∧
      ((∀ b ∈ (startup store).collection, b.serialNumber < 0) →
        (startup store).nextAutoSerialNumber = 1) := by
  refine ⟨?_, ?_, ?_⟩
  · intro hemp
    unfold startup at hemp ⊢
    dsimp only at hemp ⊢
    simp [hemp]
  · intro m hm hmax hpos hlt
    have hmx := maxSerialNumber_eq_max _ m hm hmax hpos
    rw [startup_counter store (by omega), hmx]
  · intro hneg
    have hmx := maxSerialNumber_all_negative _ hneg
    rw [startup_counter store (by omega), hmx]
    rfl

/-- Witness of C14 (amended): after startup on the file of the two sample books the
counter is 3. -/
theorem startup_counter_value_witness :
    (∃ b ∈ (startup twoBooks.store).collection, b.serialNumber = 2) ∧
      (∀ b ∈ (startup twoBooks.store).collection, b.serialNumber ≤ 2) ∧
      (startup twoBooks.store).nextAutoSerialNumber = 2 + 1 :=
  ⟨by decide, by decide,
    (startup_counter_value twoBooks.store).2.1 2 (by decide) (by decide) (by decide)
      (by decide)⟩

/-! ## The counter and the collection -/

/-- Right after startup the counter is above every loaded serial number, unless the
largest `int` is among them. -/
theorem startup_counterAbove (store : Store)
    (h : maxSerialNumber (startup store).collection < 2147483647) :
    (startup store).CounterAbove := by
  intro b hb
  have h1 := serial_le_maxSerialNumber _ b hb
  rw [startup_counter store h]
  omega

/-- An add, delete or modify keeps the counter above every serial number, unless the
counter stands at the largest `int`. -/
theorem step_counterAbove (st : State) (op : Op) (hop : op ≠ Op.restart)
    (habove : st.CounterAbove) (hint : IsInt32 st.nextAutoSerialNumber)
    (hroom : st.nextAutoSerialNumber < 2147483647) :
    (step st op).1.CounterAbove := by
  cases op with
  | restart => exact absurd rfl hop
  | add inp =>
    have hc : (addBook st inp).1.nextAutoSerialNumber = st.nextAutoSerialNumber + 1 := by
      rw [addBook_counter]
      exact wrap32_of_isInt32 _ ⟨by have := hint.1; omega, by omega⟩
    intro b hb
    simp only [step] at hb ⊢
    rw [hc]
    unfold addBook at hb
    dsimp only at hb
    cases hacc : (getUserInputForBookDetailsAndCode
        { Library.init with serialNumber := st.nextAutoSerialNumber } st.collection inp).2 with
    | false =>
      simp only [hacc] at hb
      have := habove b hb
      omega
    | true =>
      obtain ⟨c, hrec, -⟩ := getUserInput_accepted _ _ _ hacc
      simp only [hacc, if_true] at hb
      rcases List.mem_append.mp hb with hb | hb
      · have := habove b hb
        omega
      · rw [List.mem_singleton] at hb
        rw [hb, hrec]
        simp
  | delete code =>
    intro b hb
    simp only [step] at hb ⊢
    rw [deleteBook_counter]
    apply habove
    unfold deleteBook at hb
    dsimp only at hb
    split at hb
    · exact hb
    · split at hb
      · exact (List.mem_filter.mp hb).1
      · exact hb
  | modify code inp =>
    intro b hb
    simp only [step] at hb ⊢
    rw [modifyBook_counter]
    unfold modifyBook at hb
    dsimp only at hb
    split at hb
    · exact habove b hb
    · split at hb
      · exact habove b hb
      · next target hfind =>
        have htmem := (find_code_some code _ _ hfind).1
        have hbmem : b ∈ replaceFirst (fun book => book.bookCode == code)
            { (getUserInputForBookDetailsAndCode target
                (st.collection.filter fun b => !(b.serialNumber == target.serialNumber)) inp).1
              with serialNumber := target.serialNumber } st.collection := by
          split at hb <;> exact hb
        rcases mem_replaceFirst _ _ _ _ hbmem with h | h
        · rw [h]
          exact habove target htmem
        · exact habove b h

/-- C15 at its failing inputs. Started on a file that holds the serial number
2147483647, `maxSerialNumber + 1` leaves the `int` range and the counter comes out as
-2147483648, below the loaded serial number; started on a file that holds 2147483646,
the counter is 2147483647, the next add is given that number and the increment takes
the counter to -2147483648, below the record just added. -/
theorem counter_below_serial_after_overflow :
    ((startup maxSerialStore).nextAutoSerialNumber = -2147483648 ∧
        ∃ b ∈ (startup maxSerialStore).collection,
          ¬ b.serialNumber < (startup maxSerialStore).nextAutoSerialNumber) ∧
      ((startup nearMaxSerialStore).CounterAbove ∧
        (addBook (startup nearMaxSerialStore) (sampleInput 102)).2 = Outcome.done ∧
        (addBook (startup nearMaxSerialStore) (sampleInput 102)).1.nextAutoSerialNumber
          = -2147483648 ∧
        ¬ (addBook (startup nearMaxSerialStore) (sampleInput 102)).1.CounterAbove) := by
  decide

/-! ## Loading line by line -/

theorem fileLinesFrom_joinLines : ∀ ls : List Str, (∀ l ∈ ls, '\n' ∉ l) →
    fileLinesFrom (joinLines ls) [] = ls := by
  intro ls
  induction ls with
  | nil => intro _; simp [joinLines, fileLinesFrom]
  | cons l rest ih =>
    intro h
    simp only [joinLines]
    rw [fileLinesFrom_line _ _ _ (h l (List.mem_cons_self _ _)),
      ih (fun x hx => h x (List.mem_cons_of_mem _ hx))]
    simp

theorem fileLinesFrom_last : ∀ (last cur : Str), '\n' ∉ last → cur ++ last ≠ [] →
    fileLinesFrom last cur = [cur ++ last] := by
  intro last
  induction last with
  | nil => intro cur _ hne; simp at hne; simp [fileLinesFrom, hne]
  | cons x xs ih =>
    intro cur h hne
    have hx : x ≠ '\n' := fun e => h (e ▸ List.mem_cons_self _ _)
    have hxs : '\n' ∉ xs := fun e => h (List.mem_cons_of_mem _ e)
    simp only [fileLinesFrom, hx, if_false]
    rw [ih (cur ++ [x]) hxs (by simp)]
    simp

theorem fileLinesFrom_joinLines_last : ∀ (ls : List Str) (last : Str),
    (∀ l ∈ ls, '\n' ∉ l) → '\n' ∉ last → last ≠ [] →
    fileLinesFrom (joinLines ls ++ last) [] = ls ++ [last] := by
  intro ls
  induction ls with
  | nil =>
    intro last _ hl hne
    simpa [joinLines] using fileLinesFrom_last last [] hl (by simpa using hne)
  | cons l rest ih =>
    intro last h hl hne
    have e : joinLines (l :: rest) ++ last = l ++ '\n' :: (joinLines rest ++ last) := by
      simp [joinLines]
    rw [e, fileLinesFrom_line _ _ _ (h l (List.mem_cons_self _ _)),
      ih last (fun x hx => h x (List.mem_cons_of_mem _ hx)) hl hne]
    simp

theorem load_some (old : List Library) (content : Str) :
    loadBooksFromFile old (some content)
      = ((fileLines content).drop 1).filterMap decodeLine := by
  show (match fileLines content with
    | [] => []
    | _ :: rest => rest.filterMap decodeLine) = _
  cases fileLines content <;> rfl

theorem load_lines (old : List Library) (first : Str) (ls : List Str)
    (hf : '\n' ∉ first) (hls : ∀ l ∈ ls, '\n' ∉ l) :
    loadBooksFromFile old (some (first ++ '\n' :: joinLines ls)) = ls.filterMap decodeLine := by
  rw [load_some]
  unfold fileLines
  rw [fileLinesFrom_line _ _ _ hf, fileLinesFrom_joinLines ls hls]
  rfl

/-- C16. For every content of an existing backing file, `loadBooksFromFile` returns the
records obtained by decoding, each on its own and in file order, the lines after the
first, leaving out the lines that are rejected. Spelled out: whatever the first line
is, a file of terminated lines (and one whose last line lacks the line end) loads as
the decoded later lines; and a rejected line can be taken out of the file without
changing what is loaded. -/
theorem load_decodes_later_lines (old : List Library) :
    (∀ content : Str, loadBooksFromFile old (some content)
        = ((fileLines content).drop 1).filterMap decodeLine) ∧
      (∀ (first : Str) (ls : List Str), '\n' ∉ first → (∀ l ∈ ls, '\n' ∉ l) →
        loadBooksFromFile old (some (first ++ '\n' :: joinLines ls))
          = ls.filterMap decodeLine) ∧
      (∀ (first : Str) (ls : List Str) (last : Str), '\n' ∉ first → (∀ l ∈ ls, '\n' ∉ l) →
        '\n' ∉ last → last ≠ [] →
        loadBooksFromFile old (some (first ++ '\n' :: (joinLines ls ++ last)))
          = (ls ++ [last]).filterMap decodeLine) ∧
      (∀ (first : Str) (pre post : List Str) (bad : Str), '\n' ∉ first →
        (∀ l ∈ pre, '\n' ∉ l) → (∀ l ∈ post, '\n' ∉ l) → '\n' ∉ bad → decodeLine bad = none →
        loadBooksFromFile old (some (first ++ '\n' :: joinLines (pre ++ bad :: post)))
          = loadBooksFromFile old (some (first ++ '\n' :: joinLines (pre ++ post)))) := by
  refine ⟨?_, ?_, ?_, ?_⟩
  · intro content
    exact load_some old content
  · intro first ls hf hls
    exact load_lines old first ls hf hls
  · intro first ls last hf hls hl hne
    rw [load_some]
    unfold fileLines
    rw [fileLinesFrom_line _ _ _ hf, fileLinesFrom_joinLines_last ls last hls hl hne]
    rfl
  · intro first pre post bad hf hpre hpost hbad hrej
    rw [load_lines old first _ hf, load_lines old first _ hf]
    · simp [List.filterMap_append, List.filterMap_cons, hrej]
    · intro l hl
      rcases List.mem_append.mp hl with h | h
      · exact hpre l h
      · exact hpost l h
    · intro l hl
      rcases List.mem_append.mp hl with h | h
      · exact hpre l h
      · rcases List.mem_cons.mp h with h | h
        · rw [h]; exact hbad
        · exact hpost l h

/-- Witness of C16: a file whose first line is a well-formed record line, followed by
a line that is rejected and a second record line, loads as the second record alone. -/
theorem load_decodes_later_lines_witness :
    decodeLine (encodeLine dune) = some dune ∧ decodeLine "no record".toList = none ∧
      loadBooksFromFile []
        (some (encodeLine dune ++ '\n' :: joinLines ["no record".toList, encodeLine emma]))
        = [emma] :=
  ⟨by decide, by decide,
    ((load_decodes_later_lines []).2.1 (encodeLine dune)
      ["no record".toList, encodeLine emma] (by decide) (by decide)).trans (by decide)⟩

/-! ## Which lines are rejected -/

theorem strtolExact_eq_none_iff (s : Str) :
    strtolExact s = none ↔ startsWithInteger s = false := by
  unfold strtolExact startsWithInteger
  generalize s.dropWhile isSpace = t
  unfold parseSigned stripSign
  split <;> split <;> simp_all

theorem stoi_none_of_not_integer (s : Str) (h : startsWithInteger s = false) :
    stoi s = none := by
  simp [stoi, (strtolExact_eq_none_iff s).mpr h]

theorem stoll_none_of_not_integer (s : Str) (h : startsWithInteger s = false) :
    stoll s = none := by
  simp [stoll, (strtolExact_eq_none_iff s).mpr h]

/-- What the loop body makes of a line with at least seven fields: the four `int`
fields and the `long long` rest are converted in turn, the names are taken as they
stand. -/
theorem decodeLine_sevenFields (f1 f2 name author f5 f6 rest : Str)
    (h1 : ',' ∉ f1) (h2 : ',' ∉ f2) (hn : ',' ∉ name) (ha : ',' ∉ author)
    (h5 : ',' ∉ f5) (h6 : ',' ∉ f6) (h7 : '\n' ∉ rest) :
    decodeLine (sevenFields f1 f2 name author f5 f6 rest) =
      match stoi f1 with
      | none => none
      | some serialNumber =>
        match stoi f2 with
        | none => none
        | some bookCode =>
          match stoi f5 with
          | none => none
          | some cost =>
            match stoi f6 with
            | none => none
            | some qty =>
              match stoll rest with
              | none => none
              | some totalCost =>
                some { serialNumber := serialNumber, bookCode := bookCode, bookName := name,
                       authorName := author, cost := cost, qty := qty,
                       totalCost := totalCost } := by
  unfold decodeLine sevenFields
  simp only [getline_field ',' _ _ _ h1, getline_field ',' _ _ _ h2,
    getline_field ',' _ _ _ hn, getline_field ',' _ _ _ ha, getline_field ',' _ _ _ h5,
    getline_field ',' _ _ _ h6, getline_last '\n' _ _ h7]
/-- C17, as stated, fails twice. A line of five fields is not rejected: once the line
is used up, the reads for quantity and total leave the text of the last field in place
and it is converted again. And a numeric field with text after its digits is not
rejected: the conversion stops at the first character that is not a digit. -/
theorem decode_accepts_malformed_counterexample :
    (("1,2,title,author,5".toList).count ',' = 4 ∧
        decodeLine "1,2,title,author,5".toList
          = some { serialNumber := 1, bookCode := 2, bookName := "title".toList,
                   authorName := "author".toList, cost := 5, qty := 5, totalCost := 5 }) ∧
      (isPlainInteger "1x".toList = false ∧
        decodeLine (sevenFields "1x".toList "2".toList "a".toList "b".toList "3".toList
            "4".toList "12".toList)
          = some { serialNumber := 1, bookCode := 2, bookName := "a".toList,
                   authorName := "b".toList, cost := 3, qty := 4, totalCost := 12 }) := by
  decide

/-- C17 (amended). A line with at least seven comma-separated fields (the seventh
being the rest of the line) is rejected whenever one of the five numeric fields does
not begin, after optional white space, with an optional sign followed by a decimal
digit; such a line, standing anywhere after the first line of a file, contributes no
record to the load. -/
theorem decode_rejects_non_numeric_field (f1 f2 name author f5 f6 rest : Str)
    (h1 : ',' ∉ f1) (h2 : ',' ∉ f2) (hn : ',' ∉ name) (ha : ',' ∉ author)
    (h5 : ',' ∉ f5) (h6 : ',' ∉ f6) (h7 : '\n' ∉ rest)
    (hbad : startsWithInteger f1 = false ∨ startsWithInteger f2 = false ∨
      startsWithInteger f5 = false ∨ startsWithInteger f6 = false ∨
      startsWithInteger rest = false) :
    decodeLine (sevenFields f1 f2 name author f5 f6 rest) = none ∧
      ∀ (old : List Library) (first : Str) (pre post : List Str), '\n' ∉ first →
        (∀ l ∈ pre, '\n' ∉ l) → (∀ l ∈ post, '\n' ∉ l) →
        '\n' ∉ sevenFields f1 f2 name author f5 f6 rest →
        loadBooksFromFile old (some (first ++ '\n' ::
            joinLines (pre ++ sevenFields f1 f2 name author f5 f6 rest :: post)))
          = (pre ++ post).filterMap decodeLine := by
  have hrej : decodeLine (sevenFields f1 f2 name author f5 f6 rest) = none := by
    rw [decodeLine_sevenFields f1 f2 name author f5 f6 rest h1 h2 hn ha h5 h6 h7]
    rcases hbad with h | h | h | h | h
    · simp [stoi_none_of_not_integer _ h]
    · simp only [stoi_none_of_not_integer _ h]
      split <;> rfl
    · simp only [stoi_none_of_not_integer _ h]
      split
      · rfl
      · split <;> rfl
    · simp only [stoi_none_of_not_integer _ h]
      split
      · rfl
      · split
        · rfl
        · split <;> rfl
    · simp only [stoll_none_of_not_integer _ h]
      split
      · rfl
      · split
        · rfl
        · split
          · rfl
          · split <;> rfl
  refine ⟨hrej, ?_⟩
  intro old first pre post hf hpre hpost hline
  rw [load_lines old first _ hf]
  · simp [List.filterMap_append, List.filterMap_cons, hrej]
  · intro l hl
    rcases List.mem_append.mp hl with h | h
    · exact hpre l h
    · rcases List.mem_cons.mp h with h | h
      · rw [h]; exact hline
      · exact hpost l h

/-- Witness of C17 (amended): the price field `x15` does not begin with a number. -/
theorem decode_rejects_non_numeric_field_witness :
    startsWithInteger "x15".toList = false ∧
      decodeLine (sevenFields "1".toList "101".toList "Dune".toList "Herbert".toList
        "x15".toList "2".toList "30".toList) = none :=
  ⟨by decide,
    (decode_rejects_non_numeric_field "1".toList "101".toList "Dune".toList "Herbert".toList
      "x15".toList "2".toList "30".toList (by decide) (by decide) (by decide) (by decide)
      (by decide) (by decide) (by decide) (Or.inr (Or.inr (Or.inl (by decide))))).1⟩

/-! ## Append and rewrite -/

/-- C18. Append is equivalent to rewrite: with a writable file, appending a record to
the file written for a collection gives, byte for byte, the file written for the
collection followed by the record; and appending to a missing or empty file gives the
file written for the one-record collection, header line first. -/
theorem append_equals_rewrite (collection : List Library) (book : Library) (store : Store)
    (hw : store.writable = true) :
    appendBookToFile book (saveBooksToFile collection store)
        = saveBooksToFile (collection ++ [book]) store ∧
      ((store.content = none ∨ store.content = some []) →
        appendBookToFile book store = saveBooksToFile [book] store) := by
  constructor
  · have h1 : (saveBooksToFile collection store).writable = true := by
      simp [saveBooksToFile, hw]
    have h2 : (saveBooksToFile collection store).content = some (fileImage collection) := by
      simp [saveBooksToFile, hw]
    have h3 := append_to_image collection book _ h1 h2
    have h4 := append_writable book (saveBooksToFile collection store)
    cases hres : appendBookToFile book (saveBooksToFile collection store) with
    | mk content writable =>
      rw [hres] at h3 h4
      simp only at h3 h4
      simp [saveBooksToFile, hw, h3, h4, h1]
  · intro hempty
    have h3 := append_to_empty book store hw hempty
    have h4 := append_writable book store
    cases hres : appendBookToFile book store with
    | mk content writable =>
      rw [hres] at h3 h4
      simp only at h3 h4
      simp [saveBooksToFile, hw, h3, h4]

/-- Witness of C18: appending the second sample book to the file of the first. -/
theorem append_equals_rewrite_witness :
    freshStore.writable = true ∧
      appendBookToFile emma (saveBooksToFile [dune] freshStore)
        = saveBooksToFile ([dune] ++ [emma]) freshStore ∧
      appendBookToFile emma freshStore = saveBooksToFile [emma] freshStore :=
  ⟨rfl, (append_equals_rewrite [dune] emma freshStore rfl).1,
    (append_equals_rewrite [dune] emma freshStore rfl).2 (Or.inl rfl)⟩

/-! ## The width of `totalCost` -/

/-- C19. For price and quantity in the `int` range, the `totalCost` that
`getUserInputForBookDetailsAndCode` computes (for add and for modify alike) as a
64-bit product is the exact product, and the exact product fits 64 bits. -/
theorem total_cost_exact (book : Library) (existingBooks : List Library) (inp : BookInput)
    (hcost : IsInt32 inp.cost) (hqty : IsInt32 inp.qty)
    (hacc : (getUserInputForBookDetailsAndCode book existingBooks inp).2 = true) :
    (getUserInputForBookDetailsAndCode book existingBooks inp).1.totalCost
        = inp.cost * inp.qty ∧
      wrap64 (inp.cost * inp.qty) = inp.cost * inp.qty ∧ IsInt64 (inp.cost * inp.qty) := by
  obtain ⟨c, hc, -⟩ := getUserInput_accepted book existingBooks inp hacc
  have hw := wrap64_mul_int32 _ _ hcost hqty
  refine ⟨?_, hw, isInt64_mul_of_isInt32 _ _ hcost hqty⟩
  rw [hc]
  exact hw

/-- Witness of C19: the smallest `int` as price and as quantity, on an add to an empty
collection. -/
theorem total_cost_exact_witness :
    IsInt32 extremeInput.cost ∧ IsInt32 extremeInput.qty ∧
      (getUserInputForBookDetailsAndCode Library.init [] extremeInput).1.totalCost
        = 4611686018427387904 :=
  ⟨by decide, by decide,
    (total_cost_exact Library.init [] extremeInput (by decide) (by decide)
      (by decide)).1.trans (by decide)⟩

/-! ## Commas in names -/

theorem splitAtDelim_no_delim (delim : Char) : ∀ l : Str, delim ∉ (splitAtDelim delim l).1 := by
  intro l
  induction l with
  | nil => simp [splitAtDelim]
  | cons x xs ih =>
    by_cases hx : x = delim
    · simp [splitAtDelim, hx]
    · simp only [splitAtDelim, hx, if_false, List.mem_cons, not_or]
      exact ⟨fun e => hx e.symm, ih⟩

theorem getline_no_delim (ss : SStream) (old : Str) (delim : Char) (h : delim ∉ old) :
    delim ∉ (getline ss old delim).2 := by
  have hs := splitAtDelim_no_delim delim ss.buf
  unfold getline
  split
  · split
    · next pre rest heq => rw [heq] at hs; exact hs
    · next pre heq => rw [heq] at hs; exact hs
  · exact h

/-- No line decodes to a record with a comma in a name. -/
theorem decodeLine_names_no_comma (line : Str) (b : Library) (h : decodeLine line = some b) :
    ',' ∉ b.bookName ∧ ',' ∉ b.authorName := by
  unfold decodeLine at h
  dsimp only at h
  split at h
  · cases h
  · split at h
    · cases h
    · split at h
      · cases h
      · split at h
        · cases h
        · split at h
          · cases h
          · cases h
            exact ⟨getline_no_delim _ _ _ (by simp), getline_no_delim _ _ _ (by simp)⟩

/-- C20. Unescaped delimiter breaks the round trip: for every record whose title or
author contains a comma, decoding the encoded line does not give back that record: the
line is rejected, or the record decoded differs from the original. -/
theorem comma_breaks_round_trip (book : Library)
    (h : ',' ∈ book.bookName ∨ ',' ∈ book.authorName) :
    decodeLine (encodeLine book) ≠ some book := by
  intro hdec
  have hno := decodeLine_names_no_comma _ _ hdec
  rcases h with h | h
  · exact hno.1 h
  · exact hno.2 h

/-- Witness of C20: the title `a,b`. -/
theorem comma_breaks_round_trip_witness :
    ',' ∈ ({ dune with bookName := "a,b".toList } : Library).bookName ∧
      decodeLine (encodeLine { dune with bookName := "a,b".toList })
        ≠ some { dune with bookName := "a,b".toList } :=
  ⟨by decide, comma_breaks_round_trip { dune with bookName := "a,b".toList }
    (Or.inl (by decide))⟩

end LibraryCsv
